import Mathlib

/-!
Verification of the geometry core of `kikuchipy` (files
`kikuchipy/simulations/features.py` and `kikuchipy/draw/markers.py`).

The numpy arrays of the source are embedded as `NDArray`: a shape (a list of
dimension sizes) together with a total index function; only indices that are
in bounds for the shape are meaningful.  Floating point values are embedded as
`NpFloat`: an idealised IEEE-754 value that is either a finite real number,
one of the two infinities, or nan.  Operations that numpy aborts with an
exception (reshape to a size-changing shape, out-of-range integer indexing,
broadcasting of incompatible shapes, boolean masks of the wrong shape) are
embedded as `Option`-valued functions returning `none` in the raising case.
-/

namespace Kikuchipy

/-- An idealised IEEE-754 floating point value: a finite real number, one of
the two infinities, or nan. -/
inductive NpFloat where
  | num (x : ℝ)
  | pinf
  | ninf
  | nan

namespace NpFloat

/-- Finiteness test: only `num` values are finite. -/
def isFinite : NpFloat → Bool
  | num _ => true
  | _ => false

/-- Nan test. -/
def isNan : NpFloat → Bool
  | nan => true
  | _ => false

/-- Floating point addition with nan propagation. -/
noncomputable def add : NpFloat → NpFloat → NpFloat
  | nan, _ => nan
  | _, nan => nan
  | num x, num y => num (x + y)
  | num _, pinf => pinf
  | num _, ninf => ninf
  | pinf, num _ => pinf
  | ninf, num _ => ninf
  | pinf, pinf => pinf
  | ninf, ninf => ninf
  | pinf, ninf => nan
  | ninf, pinf => nan

/-- Floating point subtraction with nan propagation. -/
noncomputable def sub : NpFloat → NpFloat → NpFloat
  | nan, _ => nan
  | _, nan => nan
  | num x, num y => num (x - y)
  | num _, pinf => ninf
  | num _, ninf => pinf
  | pinf, num _ => pinf
  | ninf, num _ => ninf
  | pinf, pinf => nan
  | ninf, ninf => nan
  | pinf, ninf => pinf
  | ninf, pinf => ninf

/-- Floating point multiplication with nan propagation; `0 * ±∞` is nan. -/
noncomputable def mul : NpFloat → NpFloat → NpFloat
  | nan, _ => nan
  | _, nan => nan
  | num x, num y => num (x * y)
  | num x, pinf => if x = 0 then nan else if 0 < x then pinf else ninf
  | num x, ninf => if x = 0 then nan else if 0 < x then ninf else pinf
  | pinf, num y => if y = 0 then nan else if 0 < y then pinf else ninf
  | ninf, num y => if y = 0 then nan else if 0 < y then ninf else pinf
  | pinf, pinf => pinf
  | ninf, ninf => pinf
  | pinf, ninf => ninf
  | ninf, pinf => ninf

/-- Floating point division: division of a nonzero finite value by zero gives
a signed infinity, `0 / 0` gives nan, finite by infinite gives zero.  numpy
emits a warning in the zero-divisor cases but raises no error. -/
noncomputable def div : NpFloat → NpFloat → NpFloat
  | nan, _ => nan
  | _, nan => nan
  | num x, num y =>
      if y = 0 then (if x = 0 then nan else if 0 < x then pinf else ninf)
      else num (x / y)
  | num _, pinf => num 0
  | num _, ninf => num 0
  | pinf, num y => if 0 ≤ y then pinf else ninf
  | ninf, num y => if 0 ≤ y then ninf else pinf
  | pinf, pinf => nan
  | pinf, ninf => nan
  | ninf, pinf => nan
  | ninf, ninf => nan

/-- Floating point absolute value. -/
def abs : NpFloat → NpFloat
  | num x => num |x|
  | pinf => pinf
  | ninf => pinf
  | nan => nan

/-- Floating point strict comparison; any comparison involving nan is false. -/
noncomputable def lt : NpFloat → NpFloat → Bool
  | nan, _ => false
  | _, nan => false
  | num x, num y => decide (x < y)
  | num _, pinf => true
  | num _, ninf => false
  | pinf, num _ => false
  | ninf, num _ => true
  | pinf, pinf => false
  | ninf, ninf => false
  | ninf, pinf => true
  | pinf, ninf => false

/-- Floating point cosine; non-finite arguments give nan. -/
noncomputable def cos : NpFloat → NpFloat
  | num x => num (Real.cos x)
  | _ => nan

/-- Floating point sine; non-finite arguments give nan. -/
noncomputable def sin : NpFloat → NpFloat
  | num x => num (Real.sin x)
  | _ => nan

/-- Floating point tangent; non-finite arguments give nan.  No finite IEEE
value is an exact odd multiple of `π / 2`, so the finite case is total. -/
noncomputable def tan : NpFloat → NpFloat
  | num x => num (Real.tan x)
  | _ => nan

/-- Floating point arccos: nan outside `[-1, 1]` (numpy emits an invalid-value
warning there, not an error) and on non-finite arguments. -/
noncomputable def arccos : NpFloat → NpFloat
  | num x => if x < -1 ∨ 1 < x then nan else num (Real.arccos x)
  | _ => nan

/-- Floating point square root: nan on negative and non-finite arguments
except `+∞`. -/
noncomputable def sqrt : NpFloat → NpFloat
  | num x => if x < 0 then nan else num (Real.sqrt x)
  | pinf => pinf
  | _ => nan

end NpFloat

/-- Real-valued two-argument arctangent with the numpy convention
`atan2 y x ∈ (-π, π]`, via the complex argument. -/
noncomputable def atan2r (y x : ℝ) : ℝ := Complex.arg ⟨x, y⟩

/-- Floating point two-argument arctangent; non-finite arguments give nan
(the finite cases are the only ones exercised by the theorems below). -/
noncomputable def npAtan2 : NpFloat → NpFloat → NpFloat
  | NpFloat.num y, NpFloat.num x => NpFloat.num (atan2r y x)
  | _, _ => NpFloat.nan

/-- A numpy `ndarray`: a shape and a total index function.  Only indices that
are in bounds for the shape (`InB`) are meaningful. -/
structure NDArray (α : Type) where
  shape : List ℕ
  get : List ℕ → α

/-- Model of `InB shape idx`: the multi-index `idx` is in bounds for `shape`. -/
def InB (shape idx : List ℕ) : Prop := List.Forall₂ (· < ·) idx shape

/-- Extensional equality of arrays: equal shapes and equal entries at every
in-bounds index. -/
def NDEq {α : Type} (a b : NDArray α) : Prop :=
  a.shape = b.shape ∧ ∀ idx, InB a.shape idx → a.get idx = b.get idx

/-- All in-bounds indices of a shape, enumerated in row-major (C) order, the
order in which numpy linearises an array. -/
def allIdx : List ℕ → List (List ℕ)
  | [] => [[]]
  | d :: rest => (List.range d).map (fun i => (allIdx rest).map (i :: ·)) |>.flatten

/-- Model of `np.atleast_2d`: a 0-d array becomes `(1, 1)`, a 1-d array of length `d`
becomes `(1, d)`, anything else is unchanged. -/
def atleast2d {α : Type} (a : NDArray α) : NDArray α :=
  if a.shape.length = 0 then ⟨[1, 1], fun _ => a.get []⟩
  else if a.shape.length = 1 then ⟨[1, a.shape.headD 0], fun idx => a.get (idx.drop 1)⟩
  else a

/-- Model of `a[..., np.newaxis]`: append a trailing axis of size one. -/
def newaxisLast {α : Type} (a : NDArray α) : NDArray α :=
  ⟨a.shape ++ [1], fun idx => a.get idx.dropLast⟩

/-- Model of `a[np.newaxis, ...]`: prepend a leading axis of size one. -/
def newaxisFirst {α : Type} (a : NDArray α) : NDArray α :=
  ⟨1 :: a.shape, fun idx => a.get (idx.drop 1)⟩

/-- Model of `a[..., c]` for a constant integer `c`: drop the last axis, fixing its
index to `c`. -/
def lastComp {α : Type} (a : NDArray α) (c : ℕ) : NDArray α :=
  ⟨a.shape.dropLast, fun idx => a.get (idx ++ [c])⟩

/-- Row-major linearisation of a multi-index. -/
def toFlat : List ℕ → List ℕ → ℕ
  | _ :: ds, i :: is => i * ds.prod + toFlat ds is
  | _, _ => 0

/-- Row-major delinearisation of a flat offset. -/
def fromFlat : List ℕ → ℕ → List ℕ
  | [], _ => []
  | _ :: ds, m => (m / ds.prod) :: fromFlat ds (m % ds.prod)

/-- Model of `np.reshape`: requires the total element count to be preserved, raising
(`none`) otherwise. -/
def ndReshape {α : Type} (a : NDArray α) (s : List ℕ) : Option (NDArray α) :=
  if s.prod = a.shape.prod then
    some ⟨s, fun idx => a.get (fromFlat a.shape (toFlat s idx))⟩
  else none

/-- Broadcast combination of two dimension sizes: equal sizes combine, a size
of one stretches, anything else is incompatible. -/
def bdim (a b : ℕ) : Option ℕ :=
  if a = b then some a else if a = 1 then some b else if b = 1 then some a else none

/-- Broadcast combination of two equal-length shapes. -/
def bmerge : List ℕ → List ℕ → Option (List ℕ)
  | [], [] => some []
  | x :: xs, y :: ys => do
      let d ← bdim x y
      let rest ← bmerge xs ys
      pure (d :: rest)
  | _, _ => none

/-- numpy broadcasting of two shapes: align on the right (pad the shorter
shape with ones on the left) and combine dimensionwise. -/
def bshape2 (s t : List ℕ) : Option (List ℕ) :=
  let n := max s.length t.length
  bmerge (List.replicate (n - s.length) 1 ++ s) (List.replicate (n - t.length) 1 ++ t)

/-- The index into a broadcast operand corresponding to a result index:
keep the trailing axes, sending stretched (size-one) axes to index zero. -/
def bidx (opShape idx : List ℕ) : List ℕ :=
  List.zipWith (fun d i => if d = 1 then 0 else i) opShape (idx.drop (idx.length - opShape.length))

/-- An elementwise binary numpy operation with broadcasting; `none` when the
shapes are incompatible (numpy raises). -/
def ndZip {α β γ : Type} (f : α → β → γ) (a : NDArray α) (b : NDArray β) :
    Option (NDArray γ) :=
  (bshape2 a.shape b.shape).map fun s =>
    ⟨s, fun idx => f (a.get (bidx a.shape idx)) (b.get (bidx b.shape idx))⟩

/-- An elementwise unary numpy operation (shape preserving). -/
def ndMap {α β : Type} (f : α → β) (a : NDArray α) : NDArray β :=
  ⟨a.shape, fun idx => f (a.get idx)⟩

/-- A navigation index key: a plain integer or a slice `lo:hi`
(nonnegative bounds, unit step). -/
inductive NpKey where
  | int (i : ℕ)
  | slice (lo hi : ℕ)

/-- Indexing the leading axis of an array by a key.  A 0-d array cannot be
indexed; an out-of-range integer raises (`none`); a slice clamps its bounds
as numpy does. -/
def ndIndex {α : Type} (a : NDArray α) (k : NpKey) : Option (NDArray α) :=
  match a.shape, k with
  | [], _ => none
  | d :: rest, NpKey.int i =>
      if i < d then some ⟨rest, fun idx => a.get (i :: idx)⟩ else none
  | d :: rest, NpKey.slice lo hi =>
      some ⟨(min hi d - min lo d) :: rest,
            fun idx => a.get ((min lo d + idx.headD 0) :: idx.tail)⟩

/-- Boolean-mask indexing `a[m]`: the mask must have exactly the shape of the
array; the kept entries are returned flattened in row-major order. -/
def ndBoolMask {α : Type} (a : NDArray α) (m : NDArray Bool) : Option (List α) :=
  if m.shape = a.shape then
    some (((allIdx a.shape).filter fun idx => m.get idx).map a.get)
  else none

/-- Modelled from the spec: the external 3D-vector capability (orix
`Vector3d`) exposes the polar angle `theta = arccos(z / ‖v‖)` of a vector
given by its Cartesian components. -/
noncomputable def thetaOf (x y z : NpFloat) : NpFloat :=
  NpFloat.arccos (NpFloat.div z
    (NpFloat.sqrt (NpFloat.add (NpFloat.add (NpFloat.mul x x) (NpFloat.mul y y))
      (NpFloat.mul z z))))

/-- Modelled from the spec: the external 3D-vector capability exposes the
azimuthal angle `phi = atan2(y, x)`. -/
noncomputable def phiOf (x y : NpFloat) : NpFloat := npAtan2 y x

/-- Model of `theta` of a vector field stored as an array whose last axis holds the
three Cartesian components. -/
noncomputable def vecTheta (d : NDArray NpFloat) : NDArray NpFloat :=
  ⟨d.shape.dropLast, fun idx =>
    thetaOf (d.get (idx ++ [0])) (d.get (idx ++ [1])) (d.get (idx ++ [2]))⟩

/-- Model of `phi` of a vector field stored as an array whose last axis holds the
three Cartesian components. -/
noncomputable def vecPhi (d : NDArray NpFloat) : NDArray NpFloat :=
  ⟨d.shape.dropLast, fun idx => phiOf (d.get (idx ++ [0])) (d.get (idx ++ [1]))⟩

/-- Model of `KikuchiBand` state: `phase` and `hkl` come from the external
crystallographic-index base class (`ReciprocalLatticePoint`) and are opaque
here; `hkl_detector` stores the raw component data of the `Vector3d` (shape
`navigation_shape ++ [n, 3]`); `in_pattern` and `gnomonic_radius` are the
stored (post-`__init__`) arrays. -/
structure KikuchiBand where
  phase : ℕ
  hkl : List (ℤ × ℤ × ℤ)
  hkl_detector : NDArray NpFloat
  in_pattern : NDArray Bool
  gnomonic_radius : NDArray NpFloat

/-- Model of `KikuchiBand.navigation_shape`: the shape of the `Vector3d` without its
trailing plane axis, i.e. the data shape without its last two axes. -/
def navigationShape (b : KikuchiBand) : List ℕ :=
  b.hkl_detector.shape.dropLast.dropLast

/-- The `gnomonic_radius` setter of `KikuchiBand`.  The source reads

    r = np.asarray(value)
    if r.size == 1:
        self._gnomonic_radius = r * np.ones(self.navigation_shape)
    self._gnomonic_radius = r.reshape(self.navigation_shape)

The assignment in the `if` branch is unconditionally overwritten by the
final `reshape`, which raises `ValueError` whenever `r.size` differs from
the element count of `navigation_shape` — in particular for a scalar with a
multi-pattern navigation shape.  `none` models the escaping exception. -/
def kbSetGnomonicRadius (nav : List ℕ) (value : NDArray NpFloat) :
    Option (NDArray NpFloat) :=
  ndReshape value nav

/-- Model of `KikuchiBand.__init__`: wrap the detector coordinates as a `Vector3d`
(which requires the last axis to have size 3), store
`np.atleast_2d(in_pattern)`, and run the `gnomonic_radius` setter. -/
def kbMk (phase : ℕ) (hkl : List (ℤ × ℤ × ℤ)) (hkl_detector : NDArray NpFloat)
    (in_pattern : NDArray Bool) (gnomonic_radius : NDArray NpFloat) :
    Option KikuchiBand :=
  if hkl_detector.shape ≠ [] ∧ hkl_detector.shape.getLastD 0 = 3 then
    match kbSetGnomonicRadius (hkl_detector.shape.dropLast.dropLast) gnomonic_radius with
    | some g => some ⟨phase, hkl, hkl_detector, atleast2d in_pattern, g⟩
    | none => none
  else none

/-- Model of `KikuchiBand.__getitem__`: re-construct from `hkl_detector[key]`,
`in_pattern[key]` and the (unsliced) `gnomonic_radius`.  A `Vector3d` can be
indexed only when it has at least one vector axis, i.e. the data has at
least two axes. -/
def kbGetitem (b : KikuchiBand) (k : NpKey) : Option KikuchiBand :=
  if 2 ≤ b.hkl_detector.shape.length then
    (ndIndex b.hkl_detector k).bind fun det =>
      (ndIndex b.in_pattern k).bind fun ip =>
        kbMk b.phase b.hkl det ip b.gnomonic_radius
  else none

/-- Model of `KikuchiBand.x_detector`: component 0 of the detector coordinates. -/
def xDetector (b : KikuchiBand) : NDArray NpFloat := lastComp b.hkl_detector 0

/-- Model of `KikuchiBand.y_detector`: component 1 of the detector coordinates. -/
def yDetector (b : KikuchiBand) : NDArray NpFloat := lastComp b.hkl_detector 1

/-- Model of `KikuchiBand.z_detector`: component 2 of the detector coordinates. -/
def zDetector (b : KikuchiBand) : NDArray NpFloat := lastComp b.hkl_detector 2

/-- Model of `KikuchiBand.x_gnomonic = x_detector / z_detector` (elementwise, with
numpy broadcasting). -/
noncomputable def xGnomonic (b : KikuchiBand) : Option (NDArray NpFloat) :=
  ndZip NpFloat.div (xDetector b) (zDetector b)

/-- Model of `KikuchiBand.y_gnomonic = y_detector / z_detector`. -/
noncomputable def yGnomonic (b : KikuchiBand) : Option (NDArray NpFloat) :=
  ndZip NpFloat.div (yDetector b) (zDetector b)

/-- Model of `KikuchiBand.hesse_distance = tan(0.5 π - hkl_detector.theta)`. -/
noncomputable def hesseDistance (b : KikuchiBand) : NDArray NpFloat :=
  ndMap (fun t => NpFloat.tan (NpFloat.sub (NpFloat.num (Real.pi / 2)) t))
    (vecTheta b.hkl_detector)

/-- The `is_full_upper = z_detector > -1e-5` test of
`KikuchiBand.within_gnomonic_radius`. -/
noncomputable def isFullUpper (b : KikuchiBand) : NDArray Bool :=
  ndMap (fun z => NpFloat.lt (NpFloat.num (-(1 / 100000))) z) (zDetector b)

/-- Model of `KikuchiBand.within_gnomonic_radius = logical_and(|hesse_distance| <
gnomonic_radius[..., newaxis], z_detector > -1e-5)`. -/
noncomputable def withinGnomonicRadius (b : KikuchiBand) : Option (NDArray Bool) := do
  let inCircle ← ndZip NpFloat.lt (ndMap NpFloat.abs (hesseDistance b))
    (newaxisLast b.gnomonic_radius)
  ndZip (fun p q => p && q) inCircle (isFullUpper b)

/-- Model of `KikuchiBand.hesse_alpha`: overwrite the Hesse distances outside
`within_gnomonic_radius` with nan, then take
`arccos(hesse_distance / gnomonic_radius[..., newaxis])`. -/
noncomputable def hesseAlpha (b : KikuchiBand) : Option (NDArray NpFloat) := do
  let w ← withinGnomonicRadius b
  if w.shape = (hesseDistance b).shape then
    let hd : NDArray NpFloat :=
      ⟨(hesseDistance b).shape,
        fun idx => if w.get idx then (hesseDistance b).get idx else NpFloat.nan⟩
    (ndZip NpFloat.div hd (newaxisLast b.gnomonic_radius)).map (ndMap NpFloat.arccos)
  else none

/-- The `navigation_shape + (size, 4)` array filled by
`KikuchiBand.plane_trace_coordinates` before the radius multiplication:
with `phi` the azimuth of `hkl_detector` and
`alpha1 = phi - π + hesse_alpha`, `alpha2 = phi - π - hesse_alpha`,
slots `0, 1, 2, 3` of the last axis receive
`cos alpha1, cos alpha2, sin alpha1, sin alpha2`. -/
noncomputable def ptArr (b : KikuchiBand) (alpha : NDArray NpFloat) : NDArray NpFloat :=
  ⟨navigationShape b ++ [b.hkl.length, 4], fun idx =>
    let ij := idx.dropLast
    let a1 := NpFloat.add (NpFloat.sub ((vecPhi b.hkl_detector).get ij)
      (NpFloat.num Real.pi)) (alpha.get ij)
    let a2 := NpFloat.sub (NpFloat.sub ((vecPhi b.hkl_detector).get ij)
      (NpFloat.num Real.pi)) (alpha.get ij)
    match idx.getLastD 0 with
    | 0 => NpFloat.cos a1
    | 1 => NpFloat.cos a2
    | 2 => NpFloat.sin a1
    | _ => NpFloat.sin a2⟩

/-- Model of `KikuchiBand.plane_trace_coordinates`: fill the trace array (`ptArr`)
and multiply by `gnomonic_radius[..., newaxis, newaxis]`.  The broadcast
fill requires the plane count of the detector data to equal `self.size`
(the number of `hkl`); otherwise numpy raises (`none`). -/
noncomputable def planeTraceCoordinates (b : KikuchiBand) : Option (NDArray NpFloat) := do
  let alpha ← hesseAlpha b
  if (vecPhi b.hkl_detector).shape = navigationShape b ++ [b.hkl.length] then
    ndZip NpFloat.mul (newaxisLast (newaxisLast b.gnomonic_radius)) (ptArr b alpha)
  else none

/-- Model of `ZoneAxis` state: `phase` and `hkl` opaque from the external base class;
`coordinates`, `in_pattern` and `gnomonic_radius` the stored
(post-`__init__`) arrays. -/
structure ZoneAxis where
  phase : ℕ
  hkl : List (ℤ × ℤ × ℤ)
  coordinates : NDArray NpFloat
  in_pattern : NDArray Bool
  gnomonic_radius : NDArray NpFloat

/-- The `gnomonic_radius` setter of `ZoneAxis`: a 1-d value becomes a column
(`r[:, np.newaxis]`); anything else is stored as given. -/
def zaSetGnomonicRadius (value : NDArray NpFloat) : NDArray NpFloat :=
  if value.shape.length = 1 then newaxisLast value else value

/-- Model of `ZoneAxis.__init__`: 2-d coordinates are promoted with a leading axis
(`coordinates[np.newaxis, ...]`), anything else is stored as given;
`in_pattern` goes through `np.atleast_2d`; the `gnomonic_radius` setter
runs.  Nothing can raise, so the constructor is total. -/
def zaMk (phase : ℕ) (hkl : List (ℤ × ℤ × ℤ)) (coordinates : NDArray NpFloat)
    (in_pattern : NDArray Bool) (gnomonic_radius : NDArray NpFloat) : ZoneAxis :=
  ⟨phase, hkl,
    if coordinates.shape.length = 2 then newaxisFirst coordinates else coordinates,
    atleast2d in_pattern, zaSetGnomonicRadius gnomonic_radius⟩

/-- Model of `ZoneAxis.__getitem__`: re-construct from `coordinates[key]`,
`in_pattern[key]` and the (unsliced) `gnomonic_radius`. -/
def zaGetitem (za : ZoneAxis) (k : NpKey) : Option ZoneAxis := do
  let c ← ndIndex za.coordinates k
  let ip ← ndIndex za.in_pattern k
  pure (zaMk za.phase za.hkl c ip za.gnomonic_radius)

/-- Model of `ZoneAxis.x_detector`: component 0 of the coordinates. -/
def zaXDetector (za : ZoneAxis) : NDArray NpFloat := lastComp za.coordinates 0

/-- Model of `ZoneAxis.y_detector`: component 1 of the coordinates. -/
def zaYDetector (za : ZoneAxis) : NDArray NpFloat := lastComp za.coordinates 1

/-- Model of `ZoneAxis.z_detector`: component 2 of the coordinates. -/
def zaZDetector (za : ZoneAxis) : NDArray NpFloat := lastComp za.coordinates 2

/-- Modelled from the spec: the helper `get_r` used by
`ZoneAxis.r_gnomonic` is not part of the reviewed slice; per the spec it is
the planar magnitude `√(x² + y²)` of each coordinate. -/
noncomputable def getR (c : NDArray NpFloat) : NDArray NpFloat :=
  ⟨c.shape.dropLast, fun idx =>
    NpFloat.sqrt (NpFloat.add
      (NpFloat.mul (c.get (idx ++ [0])) (c.get (idx ++ [0])))
      (NpFloat.mul (c.get (idx ++ [1])) (c.get (idx ++ [1]))))⟩

/-- Model of `ZoneAxis.r_gnomonic = get_r(coordinates) / z_detector`. -/
noncomputable def rGnomonic (za : ZoneAxis) : Option (NDArray NpFloat) :=
  ndZip NpFloat.div (getR za.coordinates) (zaZDetector za)

/-- Model of `ZoneAxis.within_gnomonic_radius = r_gnomonic < gnomonic_radius`
(strict, with numpy broadcasting). -/
noncomputable def zaWithin (za : ZoneAxis) : Option (NDArray Bool) := do
  let rg ← rGnomonic za
  ndZip NpFloat.lt rg za.gnomonic_radius

/-- Model of `ZoneAxis.x_gnomonic = x_detector[within] / z_detector[within]`:
boolean-mask filter both sides (flattening to row-major order), then divide
elementwise. -/
noncomputable def zaXGnomonic (za : ZoneAxis) : Option (List NpFloat) := do
  let w ← zaWithin za
  let xs ← ndBoolMask (zaXDetector za) w
  let zs ← ndBoolMask (zaZDetector za) w
  pure (List.zipWith NpFloat.div xs zs)

/-- Model of `ZoneAxis.y_gnomonic = y_detector[within] / z_detector[within]`. -/
noncomputable def zaYGnomonic (za : ZoneAxis) : Option (List NpFloat) := do
  let w ← zaWithin za
  let ys ← ndBoolMask (zaYDetector za) w
  let zs ← ndBoolMask (zaZDetector za) w
  pure (List.zipWith NpFloat.div ys zs)

/-- A hyperspy `line_segment` marker, holding the four coordinate arrays it
was built from. -/
structure LineSegment where
  x1 : NDArray NpFloat
  y1 : NDArray NpFloat
  x2 : NDArray NpFloat
  y2 : NDArray NpFloat

/-- Model of `lines[..., i, c]`: fix the last two axes of a line array. -/
def sliceBand (l : NDArray NpFloat) (i c : ℕ) : NDArray NpFloat :=
  ⟨l.shape.dropLast.dropLast, fun idx => l.get (idx ++ [i, c])⟩

/-- Model of `kikuchipy.draw.markers.get_line_segment_list`: promote a 1-d input with
a leading axis, then emit one marker per band (`lines.shape[-2]` of them, in
axis order), each slicing out `x1, y1, x2, y2` from the last axis.  Bands
whose coordinates are nan are not excluded (the source carries a TODO to
that effect). -/
def getLineSegmentList (lines : NDArray NpFloat) : List LineSegment :=
  let l := if lines.shape.length = 1 then newaxisFirst lines else lines
  (List.range (l.shape.dropLast.getLastD 0)).map fun i =>
    ⟨sliceBand l i 0, sliceBand l i 1, sliceBand l i 2, sliceBand l i 3⟩

/-- Default float array used with `Option.getD` (its every entry is nan). -/
def ndJunkF : NDArray NpFloat := ⟨[], fun _ => NpFloat.nan⟩

/-- Default boolean array used with `Option.getD`. -/
def ndJunkB : NDArray Bool := ⟨[], fun _ => false⟩

/-- Default `KikuchiBand` used with `Option.getD`. -/
def junkKB : KikuchiBand := ⟨0, [], ndJunkF, ndJunkB, ndJunkF⟩

/-- Default `ZoneAxis` used with `Option.getD`. -/
def junkZA : ZoneAxis := ⟨0, [], ndJunkF, ndJunkB, ndJunkF⟩

/-! ### Shape and broadcasting lemmas -/

theorem bdim_self (d : ℕ) : bdim d d = some d := by simp [bdim]

theorem bdim_one_right (d : ℕ) : bdim d 1 = some d := by
  by_cases h : d = 1 <;> simp [bdim, h]

theorem bmerge_self : ∀ s : List ℕ, bmerge s s = some s
  | [] => rfl
  | d :: rest => by simp [bmerge, bdim_self, bmerge_self rest]

theorem bmerge_snoc_one : ∀ (s : List ℕ) (n : ℕ),
    bmerge (s ++ [n]) (s ++ [1]) = some (s ++ [n])
  | [], n => by simp [bmerge, bdim_one_right]
  | d :: rest, n => by simp [bmerge, bdim_self, bmerge_snoc_one rest n]

theorem bmerge_replicate_one : ∀ s : List ℕ,
    bmerge s (List.replicate s.length 1) = some s
  | [] => rfl
  | d :: rest => by
      simp [List.replicate_succ, bmerge, bdim_one_right, bmerge_replicate_one rest]

theorem bshape2_self (s : List ℕ) : bshape2 s s = some s := by
  simp [bshape2, bmerge_self]

theorem bshape2_snoc_one (s : List ℕ) (n : ℕ) :
    bshape2 (s ++ [n]) (s ++ [1]) = some (s ++ [n]) := by
  simp [bshape2, bmerge_snoc_one]

theorem bshape2_scalar_right (s : List ℕ) : bshape2 s [] = some s := by
  simp [bshape2, bmerge_replicate_one]

theorem zipmask_self {idx s : List ℕ} (h : List.Forall₂ (· < ·) idx s) :
    List.zipWith (fun d i => if d = 1 then 0 else i) s idx = idx := by
  induction h with
  | nil => rfl
  | @cons i d itl stl hid _ ih =>
      simp only [List.zipWith, ih]
      by_cases hd : d = 1
      · subst hd; have : i = 0 := by omega
        simp [this]
      · simp [hd]

theorem bidx_self {s idx : List ℕ} (h : InB s idx) : bidx s idx = idx := by
  have hlen : idx.length = s.length := h.length_eq
  simp [bidx, hlen, zipmask_self h]

theorem forall2_snoc {i s : List ℕ} {j n : ℕ} (h : List.Forall₂ (· < ·) i s)
    (hj : j < n) : List.Forall₂ (· < ·) (i ++ [j]) (s ++ [n]) := by
  induction h with
  | nil => exact List.Forall₂.cons hj List.Forall₂.nil
  | cons h1 _ ih => exact List.Forall₂.cons h1 ih

theorem inb_snoc {s i : List ℕ} {n j : ℕ} (h : InB s i) (hj : j < n) :
    InB (s ++ [n]) (i ++ [j]) := forall2_snoc h hj

theorem bidx_snoc_one {i s : List ℕ} (h : List.Forall₂ (· < ·) i s) (j : ℕ) :
    bidx (s ++ [1]) (i ++ [j]) = i ++ [0] := by
  have hlen : i.length = s.length := h.length_eq
  have hlen2 : (i ++ [j]).length = (s ++ [1]).length := by simp [hlen]
  simp only [bidx, hlen2, Nat.sub_self, List.drop_zero]
  rw [List.zipWith_append _ _ _ _ _ hlen.symm, zipmask_self h]
  rfl

theorem bidx_nil (idx : List ℕ) : bidx [] idx = [] := rfl

theorem toFlat_lt : ∀ {shape idx : List ℕ}, List.Forall₂ (· < ·) idx shape →
    toFlat shape idx < shape.prod := by
  intro shape idx h
  induction h with
  | nil => simp [toFlat]
  | @cons i d itl stl hid _ ih =>
      have h1 : toFlat (d :: stl) (i :: itl) = i * stl.prod + toFlat stl itl := rfl
      have hP : 0 < stl.prod := by
        rcases Nat.eq_zero_or_pos stl.prod with h0 | h0
        · omega
        · exact h0
      calc i * stl.prod + toFlat stl itl < i * stl.prod + stl.prod := by omega
        _ = (i + 1) * stl.prod := by ring
        _ ≤ d * stl.prod := Nat.mul_le_mul_right _ (by omega)
        _ ≤ (d :: stl).prod := by simp [List.prod_cons]

theorem fromFlat_toFlat : ∀ {shape idx : List ℕ}, List.Forall₂ (· < ·) idx shape →
    fromFlat shape (toFlat shape idx) = idx := by
  intro shape idx h
  induction h with
  | nil => rfl
  | @cons i d itl stl _ htl ih =>
      have hr : toFlat stl itl < stl.prod := toFlat_lt htl
      have hP : 0 < stl.prod := by omega
      have h1 : toFlat (d :: stl) (i :: itl) = i * stl.prod + toFlat stl itl := rfl
      have h2 : fromFlat (d :: stl) (i * stl.prod + toFlat stl itl) =
          ((i * stl.prod + toFlat stl itl) / stl.prod) ::
            fromFlat stl ((i * stl.prod + toFlat stl itl) % stl.prod) := rfl
      rw [h1, h2]
      rw [Nat.mul_comm i stl.prod, Nat.mul_add_div hP, Nat.div_eq_of_lt hr,
        Nat.mul_add_mod, Nat.mod_eq_of_lt hr, ih]
      simp

theorem ndReshape_same {α : Type} {a : NDArray α} {s : List ℕ} (h : a.shape = s) :
    ∃ r, ndReshape a s = some r ∧ r.shape = s ∧
      ∀ idx, InB s idx → r.get idx = a.get idx := by
  refine ⟨⟨s, fun idx => a.get (fromFlat a.shape (toFlat s idx))⟩, ?_, rfl, ?_⟩
  · simp [ndReshape, h]
  · intro idx hidx
    simp only [h, fromFlat_toFlat hidx]

theorem ndZip_same {α β γ : Type} (f : α → β → γ) {a : NDArray α} {b : NDArray β}
    {s : List ℕ} (ha : a.shape = s) (hb : b.shape = s) :
    ∃ c, ndZip f a b = some c ∧ c.shape = s ∧
      ∀ idx, InB s idx → c.get idx = f (a.get idx) (b.get idx) := by
  refine ⟨⟨s, fun idx => f (a.get (bidx s idx)) (b.get (bidx s idx))⟩, ?_, rfl, ?_⟩
  · simp [ndZip, ha, hb, bshape2_self]
  · intro idx hidx
    show f (a.get (bidx s idx)) (b.get (bidx s idx)) = f (a.get idx) (b.get idx)
    rw [bidx_self hidx]

theorem ndZip_newaxis {α β γ : Type} (f : α → β → γ) {a : NDArray α} {g : NDArray β}
    {s : List ℕ} {n : ℕ} (ha : a.shape = s ++ [n]) (hg : g.shape = s) :
    ∃ c, ndZip f a (newaxisLast g) = some c ∧ c.shape = s ++ [n] ∧
      ∀ i j, InB s i → j < n →
        c.get (i ++ [j]) = f (a.get (i ++ [j])) (g.get i) := by
  have hshape : (newaxisLast g).shape = s ++ [1] := by simp [newaxisLast, hg]
  refine ⟨⟨s ++ [n],
    fun idx => f (a.get (bidx (s ++ [n]) idx)) ((newaxisLast g).get (bidx (s ++ [1]) idx))⟩,
    ?_, rfl, ?_⟩
  · simp [ndZip, ha, hshape, bshape2_snoc_one]
  · intro i j hi hj
    show f (a.get (bidx (s ++ [n]) (i ++ [j]))) ((newaxisLast g).get (bidx (s ++ [1]) (i ++ [j]))) =
      f (a.get (i ++ [j])) (g.get i)
    rw [bidx_self (inb_snoc hi hj), bidx_snoc_one hi]
    simp [newaxisLast, List.dropLast_concat]

theorem ndIndex_full_slice {α : Type} {a : NDArray α} {d : ℕ} {rest : List ℕ}
    (h : a.shape = d :: rest) {hi : ℕ} (hd : d ≤ hi) :
    ∃ r, ndIndex a (NpKey.slice 0 hi) = some r ∧ r.shape = a.shape ∧
      ∀ idx, InB a.shape idx → r.get idx = a.get idx := by
  have hmin : min hi d = d := Nat.min_eq_right hd
  refine ⟨⟨(min hi d - min 0 d) :: rest,
    fun idx => a.get ((min 0 d + idx.headD 0) :: idx.tail)⟩, ?_, ?_, ?_⟩
  · simp only [ndIndex, h]
  · simp [h, hmin]
  · intro idx hidx
    rw [h] at hidx
    cases hidx with
    | cons h1 h2 => simp

theorem atleast2d_id {α : Type} {a : NDArray α} (h : 2 ≤ a.shape.length) :
    atleast2d a = a := by
  simp only [atleast2d]
  rw [if_neg (by omega), if_neg (by omega)]

theorem ndeq_refl {α : Type} (a : NDArray α) : NDEq a a := ⟨rfl, fun _ _ => rfl⟩

theorem dropLast_snoc2 (s : List ℕ) (a c : ℕ) : (s ++ [a, c]).dropLast = s ++ [a] := by
  rw [show s ++ [a, c] = (s ++ [a]) ++ [c] by simp, List.dropLast_concat]

theorem getLastD_snoc2 (s : List ℕ) (a c d : ℕ) : (s ++ [a, c]).getLastD d = c := by
  rw [show s ++ [a, c] = (s ++ [a]) ++ [c] by simp]
  simp

theorem inb_singleton {d i : ℕ} (h : i < d) : InB [d] [i] :=
  List.Forall₂.cons h List.Forall₂.nil

theorem inb_pair {p m i j : ℕ} (hi : i < p) (hj : j < m) : InB [p, m] [i, j] :=
  List.Forall₂.cons hi (List.Forall₂.cons hj List.Forall₂.nil)

theorem div_num_zero_nonfinite (x : NpFloat) :
    (NpFloat.div x (NpFloat.num 0)).isFinite = false := by
  cases x with
  | num x0 =>
      show (if (0 : ℝ) = 0 then (if x0 = 0 then NpFloat.nan else
        if 0 < x0 then NpFloat.pinf else NpFloat.ninf) else
        NpFloat.num (x0 / 0)).isFinite = false
      rw [if_pos rfl]
      by_cases h : x0 = 0
      · rw [if_pos h]; rfl
      · rw [if_neg h]
        by_cases h2 : 0 < x0
        · rw [if_pos h2]; rfl
        · rw [if_neg h2]; rfl
  | pinf =>
      show (if (0 : ℝ) ≤ 0 then NpFloat.pinf else NpFloat.ninf).isFinite = false
      rw [if_pos le_rfl]; rfl
  | ninf =>
      show (if (0 : ℝ) ≤ 0 then NpFloat.ninf else NpFloat.pinf).isFinite = false
      rw [if_pos le_rfl]; rfl
  | nan => rfl

theorem zipWith_map_same {α β γ δ : Type} (f : β → γ → δ) (g : α → β) (h : α → γ) :
    ∀ l : List α, List.zipWith f (l.map g) (l.map h) = l.map (fun x => f (g x) (h x))
  | [] => rfl
  | x :: xs => by simp [zipWith_map_same f g h xs]

theorem getLineSegmentList_eq (lines : NDArray NpFloat)
    (hlen : lines.shape.length ≠ 1) :
    getLineSegmentList lines =
      (List.range (lines.shape.dropLast.getLastD 0)).map fun i =>
        ⟨sliceBand lines i 0, sliceBand lines i 1, sliceBand lines i 2,
          sliceBand lines i 3⟩ := by
  simp only [getLineSegmentList]
  rw [if_neg hlen]

/-! ### Concrete instances used by the witnesses and counterexamples -/

/-- Scalar array holding the float 10, as produced by `np.asarray(10)`. -/
def ndScalar10 : NDArray NpFloat := ⟨[], fun _ => NpFloat.num 10⟩

/-- Detector data of shape `[1, 3]` (no navigation axis, one plane). -/
def det0 : NDArray NpFloat := ⟨[1, 3], fun _ => NpFloat.num 1⟩

/-- Visibility array of shape `[1]` matching `det0`. -/
def ip0 : NDArray Bool := ⟨[1], fun _ => true⟩

/-- Detector data of shape `[2, 1, 3]` (two patterns, one plane). -/
def det5 : NDArray NpFloat := ⟨[2, 1, 3], fun _ => NpFloat.num 1⟩

/-- Visibility array of shape `[2, 1]` matching `det5`. -/
def ip5 : NDArray Bool := ⟨[2, 1], fun _ => true⟩

/-- Radius array of shape `[2]` matching `det5`. -/
def gr5 : NDArray NpFloat := ⟨[2], fun _ => NpFloat.num 10⟩

/-- The band built by `kbMk 0 [(1,1,1)] det5 ip5 gr5`. -/
def kb5w : KikuchiBand :=
  ⟨0, [(1, 1, 1)], det5, atleast2d ip5,
    ⟨[2], fun idx => gr5.get (fromFlat gr5.shape (toFlat [2] idx))⟩⟩

/-- A band with navigation shape `[1]`, one plane with detector vector
`(1, 0, 1)`, and stored radius array `[10]`. -/
def kbA : KikuchiBand :=
  ⟨0, [(1, 1, 1)],
    ⟨[1, 1, 3], fun idx => if idx = [0, 0, 0] then NpFloat.num 1
      else if idx = [0, 0, 1] then NpFloat.num 0 else NpFloat.num 1⟩,
    ⟨[1, 1], fun _ => true⟩,
    ⟨[1], fun _ => NpFloat.num 10⟩⟩

/-- A zone axis with a single pattern and a single axis `(3, 4, 1)`, with
scalar radius 10. -/
def za7 : ZoneAxis :=
  ⟨0, [(1, 1, 1)],
    ⟨[1, 1, 3], fun idx => if idx = [0, 0, 0] then NpFloat.num 3
      else if idx = [0, 0, 1] then NpFloat.num 4 else NpFloat.num 1⟩,
    ⟨[1, 1], fun _ => true⟩, ⟨[], fun _ => NpFloat.num 10⟩⟩

/-- All-nan line array of shape `[2, 4]`. -/
def lines10 : NDArray NpFloat := ⟨[2, 4], fun _ => NpFloat.nan⟩

/-- All-nan line array of shape `[4]`. -/
def lines10b : NDArray NpFloat := ⟨[4], fun _ => NpFloat.nan⟩

/-! ### Claim theorems -/

/-- C10: `get_line_segment_list` on an input of shape `(..., k, 4)` returns
exactly `k` line-segment markers, one per band in order of the second-to-last
axis (with the four coordinates sliced from the last axis), regardless of the
stored values — nan-encoded bands are not excluded; a 1-d input of length 4 is
first promoted to shape `(1, 4)` and yields a single marker. -/
theorem c10_line_segment_list :
    (∀ (lines : NDArray NpFloat) (s : List ℕ) (k : ℕ), lines.shape = s ++ [k, 4] →
      (getLineSegmentList lines).length = k ∧
      ∀ i, i < k → (getLineSegmentList lines)[i]? =
        some ⟨sliceBand lines i 0, sliceBand lines i 1, sliceBand lines i 2,
          sliceBand lines i 3⟩) ∧
    (∀ lines : NDArray NpFloat, lines.shape = [4] →
      getLineSegmentList lines =
        [⟨sliceBand (newaxisFirst lines) 0 0, sliceBand (newaxisFirst lines) 0 1,
          sliceBand (newaxisFirst lines) 0 2, sliceBand (newaxisFirst lines) 0 3⟩]) := by
  constructor
  · intro lines s k h
    have hlen : lines.shape.length ≠ 1 := by
      rw [h, List.length_append]
      simp only [List.length_cons, List.length_nil]
      omega
    have hk : lines.shape.dropLast.getLastD 0 = k := by
      rw [h, dropLast_snoc2]; simp
    constructor
    · rw [getLineSegmentList_eq lines hlen, hk]
      simp
    · intro i hi
      rw [getLineSegmentList_eq lines hlen, hk]
      simp [hi]
  · intro lines h
    have hlen1 : lines.shape.length = 1 := by rw [h]; rfl
    have hk : (newaxisFirst lines).shape.dropLast.getLastD 0 = 1 := by
      simp [newaxisFirst, h]
    simp only [getLineSegmentList]
    rw [if_pos hlen1, hk]
    rfl

/-- C10 witness: concrete all-nan inputs of shapes `[2, 4]` and `[4]`. -/
theorem c10_witness :
    (getLineSegmentList lines10).length = 2 ∧
    getLineSegmentList lines10b =
      [⟨sliceBand (newaxisFirst lines10b) 0 0, sliceBand (newaxisFirst lines10b) 0 1,
        sliceBand (newaxisFirst lines10b) 0 2, sliceBand (newaxisFirst lines10b) 0 3⟩] :=
  ⟨(c10_line_segment_list.1 lines10 [] 2 rfl).1, c10_line_segment_list.2 lines10b rfl⟩

/-- C9: `ZoneAxis` stores its coordinates with exactly three axes — a 2-d
input is promoted with a leading axis — and integer indexing, whose direct
slice would be 2-d, yields a new instance whose coordinates are re-promoted
to three axes, so the navigation dimension never drops to zero. -/
theorem c9_coordinates_always_3d :
    (∀ (phase : ℕ) (hkl : List (ℤ × ℤ × ℤ)) (c : NDArray NpFloat)
        (ip : NDArray Bool) (gr : NDArray NpFloat),
      c.shape.length = 2 ∨ c.shape.length = 3 →
      (zaMk phase hkl c ip gr).coordinates.shape.length = 3) ∧
    (∀ (za : ZoneAxis) (p m i : ℕ), za.coordinates.shape = [p, m, 3] →
      za.in_pattern.shape = [p, m] → i < p →
      ∃ za2, zaGetitem za (NpKey.int i) = some za2 ∧
        za2.coordinates.shape = [1, m, 3]) := by
  constructor
  · intro phase hkl c ip gr h
    rcases h with h2 | h3
    · simp [zaMk, h2, newaxisFirst]
    · have : c.shape.length ≠ 2 := by omega
      simp [zaMk, this, h3]
  · intro za p m i hc hip hi
    have h1 : ndIndex za.coordinates (NpKey.int i) =
        some ⟨[m, 3], fun idx => za.coordinates.get (i :: idx)⟩ := by
      simp only [ndIndex, hc]
      rw [if_pos hi]
    have h2 : ndIndex za.in_pattern (NpKey.int i) =
        some ⟨[m], fun idx => za.in_pattern.get (i :: idx)⟩ := by
      simp only [ndIndex, hip]
      rw [if_pos hi]
    have h3 : zaGetitem za (NpKey.int i) = some (zaMk za.phase za.hkl
        ⟨[m, 3], fun idx => za.coordinates.get (i :: idx)⟩
        ⟨[m], fun idx => za.in_pattern.get (i :: idx)⟩ za.gnomonic_radius) := by
      simp [zaGetitem, h1, h2]
    exact ⟨_, h3, by simp [zaMk, newaxisFirst]⟩

/-- C9 witness: a concrete single-pattern zone axis sliced at integer 0. -/
theorem c9_witness :
    (zaMk 0 [(1, 1, 1)] (⟨[1, 3], fun _ => NpFloat.num 1⟩ : NDArray NpFloat)
      (⟨[1], fun _ => true⟩ : NDArray Bool) ndScalar10).coordinates.shape.length = 3 ∧
    ∃ za2, zaGetitem (zaMk 0 [(1, 1, 1)] (⟨[1, 3], fun _ => NpFloat.num 1⟩ : NDArray NpFloat)
        (⟨[1], fun _ => true⟩ : NDArray Bool) ndScalar10) (NpKey.int 0) = some za2 ∧
      za2.coordinates.shape = [1, 1, 3] :=
  ⟨c9_coordinates_always_3d.1 0 [(1, 1, 1)] _ _ _ (Or.inl rfl),
   c9_coordinates_always_3d.2 _ 1 1 0 rfl rfl (by omega)⟩

/-- C2: evaluating the `KikuchiBand.gnomonic_radius` setter on the failing
input — a scalar value with a two-pattern navigation shape.  The claim (and
the dead `if r.size == 1` broadcast branch of the source) say the scalar is
broadcast to shape `(2,)`; the unconditional `r.reshape(self.navigation_shape)`
that follows raises `ValueError` instead. -/
theorem c2_scalar_gr_raises : kbSetGnomonicRadius [2] ndScalar10 = none := rfl

/-- C5 counterexample: a band constructed with zero navigation dimensions
(detector data of shape `[1, 3]`).  `np.atleast_2d` promotes the stored
`in_pattern` to shape `[1, 1]`, while `hkl_detector.shape[:-1] = [1]`, so the
claimed invariant `hkl_detector.shape[:-1] == in_pattern.shape` fails. -/
theorem c5_counterexample :
    ((kbMk 0 [(1, 1, 1)] det0 ip0 ndScalar10).getD junkKB).in_pattern.shape = [1, 1] ∧
    ((kbMk 0 [(1, 1, 1)] det0 ip0 ndScalar10).getD junkKB).hkl_detector.shape.dropLast = [1] ∧
    ([1, 1] : List ℕ) ≠ [1] := by
  refine ⟨rfl, rfl, by decide⟩

/-- C5 (amended): for a band constructed with at least one navigation
dimension (`in_pattern` input of shape `navigation_shape ++ [n]` with
`navigation_shape` nonempty), the stored `in_pattern` keeps its shape and the
invariant `hkl_detector.shape[:-1] == in_pattern.shape == navigation_shape ++
[n]` holds; with zero navigation dimensions the stored `in_pattern` is
promoted to `[1, n]` and the invariant fails. -/
theorem c5_in_pattern_invariant (phase : ℕ) (hkl : List (ℤ × ℤ × ℤ))
    (det : NDArray NpFloat) (ip : NDArray Bool) (gr : NDArray NpFloat)
    (nav : List ℕ) (n : ℕ) (hnav : 1 ≤ nav.length)
    (hdet : det.shape = nav ++ [n, 3]) (hip : ip.shape = nav ++ [n])
    (b : KikuchiBand) (hb : kbMk phase hkl det ip gr = some b) :
    b.in_pattern.shape = b.hkl_detector.shape.dropLast ∧
    b.hkl_detector.shape.dropLast = nav ++ [n] := by
  simp only [kbMk] at hb
  split at hb
  · split at hb
    · cases hb
      have hip2 : 2 ≤ ip.shape.length := by
        rw [hip, List.length_append]
        simp only [List.length_cons, List.length_nil]
        omega
      constructor
      · simp only [atleast2d_id hip2, hip, hdet, dropLast_snoc2]
      · simp only [hdet, dropLast_snoc2]
    · cases hb
  · cases hb

/-- C5 witness: a concrete two-pattern band. -/
theorem c5_witness :
    kbMk 0 [(1, 1, 1)] det5 ip5 gr5 = some kb5w ∧
    kb5w.in_pattern.shape = kb5w.hkl_detector.shape.dropLast := by
  have h : kbMk 0 [(1, 1, 1)] det5 ip5 gr5 = some kb5w := rfl
  exact ⟨h, (c5_in_pattern_invariant 0 [(1, 1, 1)] det5 ip5 gr5 [2] 1 (by decide)
    rfl rfl kb5w h).1⟩

/-- C8: `x_gnomonic` and `y_gnomonic` of a `KikuchiBand` are the full
navigation-shaped elementwise quotients `x_detector / z_detector` and
`y_detector / z_detector`, computed totally — where `z_detector` is zero the
entry is a non-finite value (signed infinity or nan), not an error. -/
theorem c8_gnomonic_projection (b : KikuchiBand) (nav : List ℕ) (n : ℕ)
    (hdet : b.hkl_detector.shape = nav ++ [n, 3]) :
    (xGnomonic b).isSome = true ∧ (yGnomonic b).isSome = true ∧
    ((xGnomonic b).getD ndJunkF).shape = nav ++ [n] ∧
    ((yGnomonic b).getD ndJunkF).shape = nav ++ [n] ∧
    ∀ i j, InB nav i → j < n →
      ((xGnomonic b).getD ndJunkF).get (i ++ [j]) =
        NpFloat.div ((xDetector b).get (i ++ [j])) ((zDetector b).get (i ++ [j])) ∧
      ((yGnomonic b).getD ndJunkF).get (i ++ [j]) =
        NpFloat.div ((yDetector b).get (i ++ [j])) ((zDetector b).get (i ++ [j])) ∧
      (((zDetector b).get (i ++ [j]) = NpFloat.num 0) →
        (((xGnomonic b).getD ndJunkF).get (i ++ [j])).isFinite = false ∧
        (((yGnomonic b).getD ndJunkF).get (i ++ [j])).isFinite = false) := by
  have hx : (xDetector b).shape = nav ++ [n] := by
    simp [xDetector, lastComp, hdet, dropLast_snoc2]
  have hy : (yDetector b).shape = nav ++ [n] := by
    simp [yDetector, lastComp, hdet, dropLast_snoc2]
  have hz : (zDetector b).shape = nav ++ [n] := by
    simp [zDetector, lastComp, hdet, dropLast_snoc2]
  obtain ⟨cx, hcx, hcxs, hcxg⟩ := ndZip_same NpFloat.div hx hz
  obtain ⟨cy, hcy, hcys, hcyg⟩ := ndZip_same NpFloat.div hy hz
  have hcx2 : xGnomonic b = some cx := hcx
  have hcy2 : yGnomonic b = some cy := hcy
  rw [hcx2, hcy2]
  simp only [Option.getD_some, Option.isSome_some]
  refine ⟨trivial, trivial, hcxs, hcys, ?_⟩
  intro i j hi hj
  have hinb : InB (nav ++ [n]) (i ++ [j]) := inb_snoc hi hj
  refine ⟨hcxg _ hinb, hcyg _ hinb, ?_⟩
  intro hz0
  rw [hcxg _ hinb, hcyg _ hinb, hz0]
  exact ⟨div_num_zero_nonfinite _, div_num_zero_nonfinite _⟩

/-- C8 witness: the concrete band `kbA`. -/
theorem c8_witness :
    ((xGnomonic kbA).getD ndJunkF).shape = [1] ++ [1] ∧
    (xGnomonic kbA).isSome = true := by
  have h := c8_gnomonic_projection kbA [1] 1 rfl
  exact ⟨h.2.2.1, h.1⟩

theorem nan_div (y : NpFloat) : NpFloat.div NpFloat.nan y = NpFloat.nan := by
  cases y <;> rfl

theorem lt_pinf_left (g : NpFloat) : NpFloat.lt NpFloat.pinf g = false := by
  cases g <;> rfl

theorem lt_nan_left (g : NpFloat) : NpFloat.lt NpFloat.nan g = false := by
  cases g <;> rfl

theorem within_char (b : KikuchiBand) (nav : List ℕ) (n : ℕ)
    (hdet : b.hkl_detector.shape = nav ++ [n, 3])
    (hgr : b.gnomonic_radius.shape = nav) :
    ∃ w, withinGnomonicRadius b = some w ∧ w.shape = nav ++ [n] ∧
      ∀ i j, InB nav i → j < n →
        w.get (i ++ [j]) =
          (NpFloat.lt (NpFloat.abs ((hesseDistance b).get (i ++ [j])))
            (b.gnomonic_radius.get i) &&
           NpFloat.lt (NpFloat.num (-(1 / 100000))) ((zDetector b).get (i ++ [j]))) := by
  have hhd : (ndMap NpFloat.abs (hesseDistance b)).shape = nav ++ [n] := by
    simp [ndMap, hesseDistance, vecTheta, hdet, dropLast_snoc2]
  obtain ⟨c1, hc1, hc1s, hc1g⟩ := ndZip_newaxis NpFloat.lt hhd hgr
  have hfu : (isFullUpper b).shape = nav ++ [n] := by
    simp [isFullUpper, ndMap, zDetector, lastComp, hdet, dropLast_snoc2]
  obtain ⟨w, hw, hws, hwg⟩ := ndZip_same (fun p q => p && q) hc1s hfu
  refine ⟨w, ?_, hws, ?_⟩
  · show (ndZip NpFloat.lt (ndMap NpFloat.abs (hesseDistance b))
        (newaxisLast b.gnomonic_radius)).bind
      (fun inCircle => ndZip (fun p q => p && q) inCircle (isFullUpper b)) = some w
    rw [hc1]
    exact hw
  · intro i j hi hj
    rw [hwg _ (inb_snoc hi hj), hc1g i j hi hj]
    rfl

theorem hesseAlpha_char (b : KikuchiBand) (nav : List ℕ) (n : ℕ)
    (hdet : b.hkl_detector.shape = nav ++ [n, 3])
    (hgr : b.gnomonic_radius.shape = nav) :
    ∃ w A, withinGnomonicRadius b = some w ∧ hesseAlpha b = some A ∧
      A.shape = nav ++ [n] ∧
      ∀ i j, InB nav i → j < n →
        A.get (i ++ [j]) = NpFloat.arccos (NpFloat.div
          (if w.get (i ++ [j]) then (hesseDistance b).get (i ++ [j]) else NpFloat.nan)
          (b.gnomonic_radius.get i)) := by
  obtain ⟨w, hw, hws, hwg⟩ := within_char b nav n hdet hgr
  have hhds : (hesseDistance b).shape = nav ++ [n] := by
    simp [hesseDistance, ndMap, vecTheta, hdet, dropLast_snoc2]
  have hdMs : (⟨(hesseDistance b).shape,
      fun idx => if w.get idx then (hesseDistance b).get idx else NpFloat.nan⟩ :
      NDArray NpFloat).shape = nav ++ [n] := hhds
  obtain ⟨c, hc, hcs, hcg⟩ := ndZip_newaxis NpFloat.div hdMs hgr
  refine ⟨w, ndMap NpFloat.arccos c, hw, ?_, by simp [ndMap, hcs], ?_⟩
  · show (withinGnomonicRadius b).bind (fun w2 =>
      if w2.shape = (hesseDistance b).shape then
        (ndZip NpFloat.div
          (⟨(hesseDistance b).shape,
            fun idx => if w2.get idx then (hesseDistance b).get idx else NpFloat.nan⟩ :
            NDArray NpFloat)
          (newaxisLast b.gnomonic_radius)).map (ndMap NpFloat.arccos)
      else none) = some (ndMap NpFloat.arccos c)
    rw [hw]
    show (if w.shape = (hesseDistance b).shape then
        (ndZip NpFloat.div
          (⟨(hesseDistance b).shape,
            fun idx => if w.get idx then (hesseDistance b).get idx else NpFloat.nan⟩ :
            NDArray NpFloat)
          (newaxisLast b.gnomonic_radius)).map (ndMap NpFloat.arccos)
      else none) = some (ndMap NpFloat.arccos c)
    rw [if_pos (by rw [hws, hhds]), hc]
    rfl
  · intro i j hi hj
    show NpFloat.arccos (c.get (i ++ [j])) = _
    rw [hcg i j hi hj]

/-- C4: `within_gnomonic_radius` is a boolean array of shape
`navigation_shape + (n,)`, true at an entry exactly when
`|hesse_distance| < gnomonic_radius` (the radius broadcast per pattern) and
`z_detector > -1e-5` there; in particular it is false wherever
`z_detector ≤ -1e-5`, regardless of the Hesse distance. -/
theorem c4_within_gnomonic_radius (b : KikuchiBand) (nav : List ℕ) (n : ℕ)
    (hdet : b.hkl_detector.shape = nav ++ [n, 3])
    (hgr : b.gnomonic_radius.shape = nav) :
    (withinGnomonicRadius b).isSome = true ∧
    ((withinGnomonicRadius b).getD ndJunkB).shape = nav ++ [n] ∧
    ∀ i j, InB nav i → j < n →
      (((withinGnomonicRadius b).getD ndJunkB).get (i ++ [j]) =
        (NpFloat.lt (NpFloat.abs ((hesseDistance b).get (i ++ [j])))
          (b.gnomonic_radius.get i) &&
         NpFloat.lt (NpFloat.num (-(1 / 100000))) ((zDetector b).get (i ++ [j])))) ∧
      (∀ z : ℝ, (zDetector b).get (i ++ [j]) = NpFloat.num z → z ≤ -(1 / 100000) →
        ((withinGnomonicRadius b).getD ndJunkB).get (i ++ [j]) = false) := by
  obtain ⟨w, hw, hws, hwg⟩ := within_char b nav n hdet hgr
  rw [hw]
  refine ⟨rfl, hws, ?_⟩
  intro i j hi hj
  refine ⟨hwg i j hi hj, ?_⟩
  intro z hz hle
  show w.get (i ++ [j]) = false
  rw [hwg i j hi hj, hz]
  have hltf : NpFloat.lt (NpFloat.num (-(1 / 100000))) (NpFloat.num z) = false := by
    show decide ((-(1 / 100000) : ℝ) < z) = false
    simp only [decide_eq_false_iff_not]
    exact not_lt.mpr hle
  rw [hltf, Bool.and_false]

/-- C4 witness: the concrete band `kbA` at navigation index `[0]`, plane 0. -/
theorem c4_witness :
    (withinGnomonicRadius kbA).isSome = true ∧
    ((withinGnomonicRadius kbA).getD ndJunkB).get ([0] ++ [0]) =
      (NpFloat.lt (NpFloat.abs ((hesseDistance kbA).get ([0] ++ [0])))
        (kbA.gnomonic_radius.get [0]) &&
       NpFloat.lt (NpFloat.num (-(1 / 100000))) ((zDetector kbA).get ([0] ++ [0]))) := by
  have h := c4_within_gnomonic_radius kbA [1] 1 rfl rfl
  exact ⟨h.1, (h.2.2 [0] 0 (inb_singleton (by omega)) (by omega)).1⟩

/-- C6: `hesse_alpha` is nan at exactly the entries where
`within_gnomonic_radius` is false (the mask is applied to the arccos input,
so masked entries yield nan rather than a raised domain error), and where
`within_gnomonic_radius` is true it is a finite value in `[0, π]`. -/
theorem c6_hesse_alpha_nan (b : KikuchiBand) (nav : List ℕ) (n : ℕ)
    (hdet : b.hkl_detector.shape = nav ++ [n, 3])
    (hgr : b.gnomonic_radius.shape = nav) :
    (hesseAlpha b).isSome = true ∧
    ∀ i j, InB nav i → j < n →
      ((((hesseAlpha b).getD ndJunkF).get (i ++ [j])).isNan = true ↔
        ((withinGnomonicRadius b).getD ndJunkB).get (i ++ [j]) = false) ∧
      (((withinGnomonicRadius b).getD ndJunkB).get (i ++ [j]) = true →
        ∃ t : ℝ, ((hesseAlpha b).getD ndJunkF).get (i ++ [j]) = NpFloat.num t ∧
          0 ≤ t ∧ t ≤ Real.pi) := by
  obtain ⟨w, A, hw, hA, hAs, hAg⟩ := hesseAlpha_char b nav n hdet hgr
  obtain ⟨w2, hw2, hw2s, hw2g⟩ := within_char b nav n hdet hgr
  have hww : w2 = w := by
    rw [hw] at hw2
    exact (Option.some_inj.mp hw2).symm
  subst hww
  rw [hw, hA]
  refine ⟨rfl, ?_⟩
  intro i j hi hj
  show (((A.get (i ++ [j]))).isNan = true ↔ w2.get (i ++ [j]) = false) ∧
    (w2.get (i ++ [j]) = true → ∃ t : ℝ, A.get (i ++ [j]) = NpFloat.num t ∧
      0 ≤ t ∧ t ≤ Real.pi)
  cases hb : w2.get (i ++ [j]) with
  | false =>
      rw [hAg i j hi hj, hb]
      refine ⟨?_, fun hcontra => by cases hcontra⟩
      rw [if_neg (by simp), nan_div]
      simp [NpFloat.arccos, NpFloat.isNan]
  | true =>
      have hand := hw2g i j hi hj
      rw [hb] at hand
      have hand2 := (Bool.and_eq_true _ _).mp hand.symm
      obtain ⟨h1, _⟩ := hand2
      rw [hAg i j hi hj, hb, if_pos rfl]
      cases hhd : (hesseDistance b).get (i ++ [j]) with
      | num x =>
          rw [hhd] at h1
          cases hg : b.gnomonic_radius.get i with
          | num gv =>
              rw [hg] at h1
              have hlt : |x| < gv := of_decide_eq_true h1
              have hgv : 0 < gv := lt_of_le_of_lt (abs_nonneg x) hlt
              have hq : |x / gv| < 1 := by
                rw [abs_div, abs_of_pos hgv]
                exact (div_lt_one hgv).mpr hlt
              have hq1 : -1 < x / gv := by
                have := abs_lt.mp hq
                linarith [this.1]
              have hq2 : x / gv < 1 := (abs_lt.mp hq).2
              have hdiv : NpFloat.div (NpFloat.num x) (NpFloat.num gv) =
                  NpFloat.num (x / gv) := by
                show (if gv = 0 then _ else NpFloat.num (x / gv)) = _
                rw [if_neg (ne_of_gt hgv)]
              rw [hdiv]
              have harc : NpFloat.arccos (NpFloat.num (x / gv)) =
                  NpFloat.num (Real.arccos (x / gv)) := by
                show (if x / gv < -1 ∨ 1 < x / gv then _ else
                  NpFloat.num (Real.arccos (x / gv))) = _
                rw [if_neg (by push_neg; constructor <;> linarith)]
              rw [harc]
              refine ⟨by simp [NpFloat.isNan], fun _ =>
                ⟨Real.arccos (x / gv), rfl, Real.arccos_nonneg _, Real.arccos_le_pi _⟩⟩
          | pinf =>
              have hdiv : NpFloat.div (NpFloat.num x) NpFloat.pinf = NpFloat.num 0 := rfl
              rw [hdiv]
              have harc : NpFloat.arccos (NpFloat.num 0) =
                  NpFloat.num (Real.arccos 0) := by
                show (if (0 : ℝ) < -1 ∨ (1 : ℝ) < 0 then _ else
                  NpFloat.num (Real.arccos 0)) = _
                rw [if_neg (by push_neg; constructor <;> norm_num)]
              rw [harc]
              refine ⟨by simp [NpFloat.isNan], fun _ =>
                ⟨Real.arccos 0, rfl, Real.arccos_nonneg _, Real.arccos_le_pi _⟩⟩
          | ninf =>
              rw [hg] at h1
              cases h1
          | nan =>
              rw [hg] at h1
              cases h1
      | pinf =>
          rw [hhd] at h1
          rw [show NpFloat.abs NpFloat.pinf = NpFloat.pinf from rfl, lt_pinf_left] at h1
          cases h1
      | ninf =>
          rw [hhd] at h1
          rw [show NpFloat.abs NpFloat.ninf = NpFloat.pinf from rfl, lt_pinf_left] at h1
          cases h1
      | nan =>
          rw [hhd] at h1
          rw [show NpFloat.abs NpFloat.nan = NpFloat.nan from rfl, lt_nan_left] at h1
          cases h1

/-- C6 witness: the concrete band `kbA` at navigation index `[0]`, plane 0. -/
theorem c6_witness :
    (hesseAlpha kbA).isSome = true ∧
    ((((hesseAlpha kbA).getD ndJunkF).get ([0] ++ [0])).isNan = true ↔
      ((withinGnomonicRadius kbA).getD ndJunkB).get ([0] ++ [0]) = false) := by
  have h := c6_hesse_alpha_nan kbA [1] 1 rfl rfl
  exact ⟨h.1, (h.2 [0] 0 (inb_singleton (by omega)) (by omega)).1⟩

theorem ndZip_char {α β γ : Type} (f : α → β → γ) (a : NDArray α) (b : NDArray β)
    {s : List ℕ} (hs : bshape2 a.shape b.shape = some s) :
    ∃ c, ndZip f a b = some c ∧ c.shape = s ∧
      ∀ idx, c.get idx = f (a.get (bidx a.shape idx)) (b.get (bidx b.shape idx)) := by
  refine ⟨⟨s, fun idx => f (a.get (bidx a.shape idx)) (b.get (bidx b.shape idx))⟩,
    ?_, rfl, fun idx => rfl⟩
  simp [ndZip, hs]

theorem zaWithin_char (za : ZoneAxis) (p m : ℕ)
    (hc : za.coordinates.shape = [p, m, 3])
    (hgr : za.gnomonic_radius.shape = [] ∨ za.gnomonic_radius.shape = [p, 1]) :
    ∃ rg w, rGnomonic za = some rg ∧ zaWithin za = some w ∧ w.shape = [p, m] ∧
      ∀ i j, i < p → j < m →
        rg.get [i, j] = NpFloat.div ((getR za.coordinates).get [i, j])
          ((zaZDetector za).get [i, j]) ∧
        w.get [i, j] = NpFloat.lt (rg.get [i, j])
          (za.gnomonic_radius.get (bidx za.gnomonic_radius.shape [i, j])) := by
  have hgR : (getR za.coordinates).shape = [p, m] := by simp [getR, hc]
  have hzd : (zaZDetector za).shape = [p, m] := by simp [zaZDetector, lastComp, hc]
  obtain ⟨rg, hrg, hrgs, hrgg⟩ := ndZip_same NpFloat.div hgR hzd
  have hbs : bshape2 rg.shape za.gnomonic_radius.shape = some [p, m] := by
    rcases hgr with h | h
    · rw [hrgs, h]; exact bshape2_scalar_right [p, m]
    · rw [hrgs, h]; exact bshape2_snoc_one [p] m
  obtain ⟨w, hw, hws, hwg⟩ := ndZip_char NpFloat.lt rg za.gnomonic_radius hbs
  refine ⟨rg, w, hrg, ?_, hws, ?_⟩
  · have hrg2 : rGnomonic za = some rg := hrg
    show (rGnomonic za).bind (fun rg2 => ndZip NpFloat.lt rg2 za.gnomonic_radius) = some w
    rw [hrg2]
    exact hw
  · intro i j hi hj
    refine ⟨hrgg [i, j] (inb_pair hi hj), ?_⟩
    rw [hwg [i, j], hrgs, bidx_self (inb_pair hi hj)]

/-- C7: `ZoneAxis.within_gnomonic_radius` is the strict comparison
`r_gnomonic < gnomonic_radius` (so an axis whose radial gnomonic distance
exactly equals the radius is excluded), and `x_gnomonic`/`y_gnomonic`
return a flattened one-dimensional sequence holding
`x_detector / z_detector` (resp. `y / z`) at exactly the row-major entries
where `within_gnomonic_radius` is true — not a navigation-shaped array. -/
theorem c7_zone_axis_gnomonic (za : ZoneAxis) (p m : ℕ)
    (hc : za.coordinates.shape = [p, m, 3])
    (hgr : za.gnomonic_radius.shape = [] ∨ za.gnomonic_radius.shape = [p, 1]) :
    (zaWithin za).isSome = true ∧
    ((zaWithin za).getD ndJunkB).shape = [p, m] ∧
    (∀ i j, i < p → j < m →
      (((zaWithin za).getD ndJunkB).get [i, j] =
        NpFloat.lt (NpFloat.div ((getR za.coordinates).get [i, j])
          ((zaZDetector za).get [i, j]))
          (za.gnomonic_radius.get (bidx za.gnomonic_radius.shape [i, j]))) ∧
      (∀ r : ℝ, NpFloat.div ((getR za.coordinates).get [i, j])
          ((zaZDetector za).get [i, j]) = NpFloat.num r →
        za.gnomonic_radius.get (bidx za.gnomonic_radius.shape [i, j]) = NpFloat.num r →
        ((zaWithin za).getD ndJunkB).get [i, j] = false)) ∧
    (zaXGnomonic za).isSome = true ∧
    (zaXGnomonic za).getD [] =
      ((allIdx [p, m]).filter fun idx => ((zaWithin za).getD ndJunkB).get idx).map
        (fun idx => NpFloat.div ((zaXDetector za).get idx) ((zaZDetector za).get idx)) ∧
    (zaYGnomonic za).isSome = true ∧
    (zaYGnomonic za).getD [] =
      ((allIdx [p, m]).filter fun idx => ((zaWithin za).getD ndJunkB).get idx).map
        (fun idx => NpFloat.div ((zaYDetector za).get idx) ((zaZDetector za).get idx)) := by
  obtain ⟨rg, w, hrg, hw, hws, hcharg⟩ := zaWithin_char za p m hc hgr
  have hxd : (zaXDetector za).shape = [p, m] := by simp [zaXDetector, lastComp, hc]
  have hyd : (zaYDetector za).shape = [p, m] := by simp [zaYDetector, lastComp, hc]
  have hzd : (zaZDetector za).shape = [p, m] := by simp [zaZDetector, lastComp, hc]
  have hbx : ndBoolMask (zaXDetector za) w =
      some (((allIdx [p, m]).filter fun idx => w.get idx).map (zaXDetector za).get) := by
    simp only [ndBoolMask]
    rw [if_pos (by rw [hws, hxd]), hxd]
  have hby : ndBoolMask (zaYDetector za) w =
      some (((allIdx [p, m]).filter fun idx => w.get idx).map (zaYDetector za).get) := by
    simp only [ndBoolMask]
    rw [if_pos (by rw [hws, hyd]), hyd]
  have hbz : ndBoolMask (zaZDetector za) w =
      some (((allIdx [p, m]).filter fun idx => w.get idx).map (zaZDetector za).get) := by
    simp only [ndBoolMask]
    rw [if_pos (by rw [hws, hzd]), hzd]
  have hXg : zaXGnomonic za = some
      (((allIdx [p, m]).filter fun idx => w.get idx).map
        (fun idx => NpFloat.div ((zaXDetector za).get idx) ((zaZDetector za).get idx))) := by
    show (zaWithin za).bind (fun w2 => (ndBoolMask (zaXDetector za) w2).bind fun xs =>
      (ndBoolMask (zaZDetector za) w2).bind fun zs =>
        pure (List.zipWith NpFloat.div xs zs)) = _
    rw [hw]
    show (ndBoolMask (zaXDetector za) w).bind _ = _
    rw [hbx]
    show (ndBoolMask (zaZDetector za) w).bind _ = _
    rw [hbz]
    show some (List.zipWith NpFloat.div _ _) = _
    rw [zipWith_map_same]
  have hYg : zaYGnomonic za = some
      (((allIdx [p, m]).filter fun idx => w.get idx).map
        (fun idx => NpFloat.div ((zaYDetector za).get idx) ((zaZDetector za).get idx))) := by
    show (zaWithin za).bind (fun w2 => (ndBoolMask (zaYDetector za) w2).bind fun ys =>
      (ndBoolMask (zaZDetector za) w2).bind fun zs =>
        pure (List.zipWith NpFloat.div ys zs)) = _
    rw [hw]
    show (ndBoolMask (zaYDetector za) w).bind _ = _
    rw [hby]
    show (ndBoolMask (zaZDetector za) w).bind _ = _
    rw [hbz]
    show some (List.zipWith NpFloat.div _ _) = _
    rw [zipWith_map_same]
  rw [hw, hXg, hYg]
  simp only [Option.getD_some, Option.isSome_some]
  refine ⟨trivial, hws, ?_, trivial, trivial, trivial, trivial⟩
  intro i j hi hj
  obtain ⟨hrgval, hwval⟩ := hcharg i j hi hj
  constructor
  · rw [hwval, hrgval]
  · intro r hr hgval
    rw [hwval, hrgval, hr, hgval]
    show decide (r < r) = false
    simp

/-- C7 witness: a concrete single zone axis `(3, 4, 1)` with scalar radius. -/
theorem c7_witness :
    (zaWithin za7).isSome = true ∧ (zaXGnomonic za7).isSome = true := by
  have h := c7_zone_axis_gnomonic za7 1 1 rfl (Or.inl rfl)
  exact ⟨h.1, h.2.2.2.1⟩

/-- A two-pattern, one-plane band in post-constructor form (radius stored
with shape `[2]`, the navigation shape). -/
def kb1c : KikuchiBand :=
  ⟨0, [(1, 1, 1)], ⟨[2, 1, 3], fun _ => NpFloat.num 1⟩, ⟨[2, 1], fun _ => true⟩,
    ⟨[2], fun _ => NpFloat.num 10⟩⟩

/-- A two-pattern, one-axis zone axis with scalar stored radius. -/
def za1w : ZoneAxis :=
  ⟨0, [(1, 1, 1)], ⟨[2, 1, 3], fun _ => NpFloat.num 1⟩, ⟨[2, 1], fun _ => true⟩,
    ⟨[], fun _ => NpFloat.num 10⟩⟩

/-- C1 counterexample: indexing the two-pattern band `kb1c` with the integer
key 0 does not return a new instance at all — `__getitem__` passes the
unsliced two-element `gnomonic_radius` to the constructor, whose setter then
fails to reshape it to the reduced navigation shape `()` and raises. -/
theorem c1_counterexample : kbGetitem kb1c (NpKey.int 0) = none := rfl

/-- C1 (amended): for keys that keep every pattern (a slice covering the
whole leading axis), indexing preserves `phase`/`hkl` and returns geometry
arrays equal to the direct slices, with `gnomonic_radius` carried through
unchanged (for `KikuchiBand`, reshaped to the unchanged navigation shape)
rather than sliced; keys that drop patterns make `KikuchiBand.__getitem__`
raise, as `c1_counterexample` shows. -/
theorem c1_full_slice_indexing :
    (∀ (b : KikuchiBand) (nav : List ℕ) (n hi : ℕ),
      b.hkl_detector.shape = nav ++ [n, 3] →
      b.gnomonic_radius.shape = nav →
      2 ≤ b.in_pattern.shape.length →
      b.hkl_detector.shape.headD 0 ≤ hi →
      b.in_pattern.shape.headD 0 ≤ hi →
      ∃ b2, kbGetitem b (NpKey.slice 0 hi) = some b2 ∧
        b2.phase = b.phase ∧ b2.hkl = b.hkl ∧
        NDEq b2.hkl_detector ((ndIndex b.hkl_detector (NpKey.slice 0 hi)).getD ndJunkF) ∧
        NDEq b2.in_pattern ((ndIndex b.in_pattern (NpKey.slice 0 hi)).getD ndJunkB) ∧
        NDEq b2.gnomonic_radius b.gnomonic_radius) ∧
    (∀ (za : ZoneAxis) (p m hi : ℕ),
      za.coordinates.shape = [p, m, 3] →
      za.in_pattern.shape = [p, m] →
      za.gnomonic_radius.shape.length ≠ 1 →
      p ≤ hi →
      ∃ za2, zaGetitem za (NpKey.slice 0 hi) = some za2 ∧
        za2.phase = za.phase ∧ za2.hkl = za.hkl ∧
        NDEq za2.coordinates ((ndIndex za.coordinates (NpKey.slice 0 hi)).getD ndJunkF) ∧
        NDEq za2.in_pattern ((ndIndex za.in_pattern (NpKey.slice 0 hi)).getD ndJunkB) ∧
        za2.gnomonic_radius = za.gnomonic_radius) := by
  constructor
  · intro b nav n hi hdet hgr hip2 hd1 hd2
    have hne : b.hkl_detector.shape ≠ [] := by rw [hdet]; simp
    obtain ⟨d, rest, hcons⟩ : ∃ d rest, b.hkl_detector.shape = d :: rest := by
      rcases hsh : b.hkl_detector.shape with _ | ⟨d, rest⟩
      · exact absurd hsh hne
      · exact ⟨d, rest, rfl⟩
    have hdle : d ≤ hi := by
      have hh : b.hkl_detector.shape.headD 0 = d := by rw [hcons]; rfl
      rw [hh] at hd1; exact hd1
    obtain ⟨r, hr, hrs, hrg⟩ := ndIndex_full_slice hcons hdle
    have hipne : b.in_pattern.shape ≠ [] := by
      intro hh; rw [hh] at hip2; simp at hip2
    obtain ⟨d2, rest2, hcons2⟩ : ∃ d2 rest2, b.in_pattern.shape = d2 :: rest2 := by
      rcases hsh : b.in_pattern.shape with _ | ⟨d2, rest2⟩
      · exact absurd hsh hipne
      · exact ⟨d2, rest2, rfl⟩
    have hd2le : d2 ≤ hi := by
      have hh : b.in_pattern.shape.headD 0 = d2 := by rw [hcons2]; rfl
      rw [hh] at hd2; exact hd2
    obtain ⟨r2, hr2, hr2s, hr2g⟩ := ndIndex_full_slice hcons2 hd2le
    obtain ⟨g, hg, hgs, hgg⟩ := ndReshape_same (a := b.gnomonic_radius) (s := nav) hgr
    have hnavr : r.shape.dropLast.dropLast = nav := by
      rw [hrs, hdet, dropLast_snoc2, List.dropLast_concat]
    have hdet2 : 2 ≤ b.hkl_detector.shape.length := by
      rw [hdet, List.length_append]
      simp only [List.length_cons, List.length_nil]
      omega
    have hmain : kbGetitem b (NpKey.slice 0 hi) =
        kbMk b.phase b.hkl r r2 b.gnomonic_radius := by
      show (if 2 ≤ b.hkl_detector.shape.length then
          (ndIndex b.hkl_detector (NpKey.slice 0 hi)).bind fun det =>
            (ndIndex b.in_pattern (NpKey.slice 0 hi)).bind fun ip =>
              kbMk b.phase b.hkl det ip b.gnomonic_radius
        else none) = _
      rw [if_pos hdet2, hr]
      show (ndIndex b.in_pattern (NpKey.slice 0 hi)).bind _ = _
      rw [hr2]
      rfl
    have hrne : r.shape ≠ [] := by rw [hrs, hdet]; simp
    have hrlast : r.shape.getLastD 0 = 3 := by
      rw [hrs, hdet, show nav ++ [n, 3] = (nav ++ [n]) ++ [3] by simp]
      simp
    have hsetg : kbSetGnomonicRadius (r.shape.dropLast.dropLast) b.gnomonic_radius =
        some g := by
      show ndReshape b.gnomonic_radius (r.shape.dropLast.dropLast) = some g
      rw [hnavr]; exact hg
    have hmk : kbMk b.phase b.hkl r r2 b.gnomonic_radius =
        some ⟨b.phase, b.hkl, r, atleast2d r2, g⟩ := by
      simp only [kbMk]
      rw [if_pos (⟨hrne, hrlast⟩ : _ ∧ _), hsetg]
    refine ⟨⟨b.phase, b.hkl, r, atleast2d r2, g⟩, by rw [hmain, hmk], rfl, rfl, ?_, ?_, ?_⟩
    · show NDEq r ((ndIndex b.hkl_detector (NpKey.slice 0 hi)).getD ndJunkF)
      rw [hr]
      exact ndeq_refl r
    · show NDEq (atleast2d r2) ((ndIndex b.in_pattern (NpKey.slice 0 hi)).getD ndJunkB)
      rw [hr2, atleast2d_id (by rw [hr2s]; exact hip2)]
      exact ndeq_refl r2
    · refine ⟨hgs.trans hgr.symm, ?_⟩
      intro idx hidx
      apply hgg
      rw [hgs] at hidx
      exact hidx
  · intro za p m hi hc hip hgrnd hple
    obtain ⟨r, hr, hrs, hrg⟩ :=
      ndIndex_full_slice (show za.coordinates.shape = p :: [m, 3] from hc) hple
    obtain ⟨r2, hr2, hr2s, hr2g⟩ :=
      ndIndex_full_slice (show za.in_pattern.shape = p :: [m] from hip) hple
    have hza : zaGetitem za (NpKey.slice 0 hi) =
        some (zaMk za.phase za.hkl r r2 za.gnomonic_radius) := by
      show (ndIndex za.coordinates (NpKey.slice 0 hi)).bind
        (fun c => (ndIndex za.in_pattern (NpKey.slice 0 hi)).bind fun ip =>
          pure (zaMk za.phase za.hkl c ip za.gnomonic_radius)) = _
      rw [hr]
      show (ndIndex za.in_pattern (NpKey.slice 0 hi)).bind _ = _
      rw [hr2]
      rfl
    refine ⟨zaMk za.phase za.hkl r r2 za.gnomonic_radius, hza, rfl, rfl, ?_, ?_, ?_⟩
    · show NDEq (if r.shape.length = 2 then newaxisFirst r else r)
        ((ndIndex za.coordinates (NpKey.slice 0 hi)).getD ndJunkF)
      rw [if_neg (by rw [hrs, hc]; simp), hr]
      exact ndeq_refl r
    · show NDEq (atleast2d r2)
        ((ndIndex za.in_pattern (NpKey.slice 0 hi)).getD ndJunkB)
      rw [atleast2d_id (by rw [hr2s, hip]; exact Nat.le.refl), hr2]
      exact ndeq_refl r2
    · show zaSetGnomonicRadius za.gnomonic_radius = za.gnomonic_radius
      simp only [zaSetGnomonicRadius]
      rw [if_neg hgrnd]

/-- C1 witness: full slices of the concrete two-pattern instances. -/
theorem c1_witness :
    (kbGetitem kb1c (NpKey.slice 0 2)).isSome = true ∧
    (zaGetitem za1w (NpKey.slice 0 2)).isSome = true := by
  obtain ⟨b2, hb2, -⟩ := c1_full_slice_indexing.1 kb1c [2] 1 2 rfl rfl
    (by decide) (by decide) (by decide)
  obtain ⟨za2, hza2, -⟩ := c1_full_slice_indexing.2 za1w 2 1 2 rfl rfl
    (by decide) (by decide)
  rw [hb2, hza2]
  exact ⟨rfl, rfl⟩

/-! ### Reduction lemmas for finite float values -/

theorem num_add (x y : ℝ) :
    NpFloat.add (NpFloat.num x) (NpFloat.num y) = NpFloat.num (x + y) := rfl

theorem num_sub (x y : ℝ) :
    NpFloat.sub (NpFloat.num x) (NpFloat.num y) = NpFloat.num (x - y) := rfl

theorem num_mul (x y : ℝ) :
    NpFloat.mul (NpFloat.num x) (NpFloat.num y) = NpFloat.num (x * y) := rfl

theorem num_tan (x : ℝ) : NpFloat.tan (NpFloat.num x) = NpFloat.num (Real.tan x) := rfl

theorem num_div {x y : ℝ} (h : y ≠ 0) :
    NpFloat.div (NpFloat.num x) (NpFloat.num y) = NpFloat.num (x / y) := by
  show (if y = 0 then _ else NpFloat.num (x / y)) = _
  rw [if_neg h]

theorem num_sqrt {x : ℝ} (h : 0 ≤ x) :
    NpFloat.sqrt (NpFloat.num x) = NpFloat.num (Real.sqrt x) := by
  show (if x < 0 then _ else NpFloat.num (Real.sqrt x)) = _
  rw [if_neg (not_lt.mpr h)]

theorem num_arccos {x : ℝ} (h1 : -1 ≤ x) (h2 : x ≤ 1) :
    NpFloat.arccos (NpFloat.num x) = NpFloat.num (Real.arccos x) := by
  show (if x < -1 ∨ 1 < x then _ else NpFloat.num (Real.arccos x)) = _
  rw [if_neg (by push_neg; constructor <;> linarith)]

/-! ### Broadcasting lemmas for the double-newaxis radius factor -/

theorem bdim_one_left (d : ℕ) : bdim 1 d = some d := by
  by_cases h : (1 : ℕ) = d
  · simp [bdim, h]
  · simp [bdim, h]

theorem bmerge_ones2 : ∀ (s : List ℕ) (a c : ℕ),
    bmerge (s ++ [1, 1]) (s ++ [a, c]) = some (s ++ [a, c])
  | [], a, c => by simp [bmerge, bdim_one_left]
  | d :: rest, a, c => by simp [bmerge, bdim_self, bmerge_ones2 rest a c]

theorem bshape2_ones2 (s : List ℕ) (a c : ℕ) :
    bshape2 (s ++ [1, 1]) (s ++ [a, c]) = some (s ++ [a, c]) := by
  simp [bshape2, bmerge_ones2]

theorem bidx_snoc2_ones {i s : List ℕ} (h : List.Forall₂ (· < ·) i s) (j c : ℕ) :
    bidx (s ++ [1, 1]) (i ++ [j, c]) = i ++ [0, 0] := by
  have hlen : i.length = s.length := h.length_eq
  have hlen2 : (i ++ [j, c]).length = (s ++ [1, 1]).length := by simp [hlen]
  simp only [bidx, hlen2, Nat.sub_self, List.drop_zero]
  rw [show s ++ [1, 1] = (s ++ [1]) ++ [1] by simp,
      show i ++ [j, c] = (i ++ [j]) ++ [c] by simp]
  rw [List.zipWith_append _ _ _ _ _ (by simp [hlen])]
  rw [List.zipWith_append _ _ _ _ _ hlen.symm]
  rw [zipmask_self h]
  simp

theorem inb_snoc2 {i s : List ℕ} {j c n d : ℕ} (h : InB s i) (hj : j < n) (hc : c < d) :
    InB (s ++ [n, d]) (i ++ [j, c]) := by
  have h2 := inb_snoc (inb_snoc h hj) hc
  rw [show (s ++ [n]) ++ [d] = s ++ [n, d] by simp,
      show (i ++ [j]) ++ [c] = i ++ [j, c] by simp] at h2
  exact h2

theorem ptArr_get (b : KikuchiBand) (A : NDArray NpFloat) (i : List ℕ) (j : ℕ) :
    (ptArr b A).get (i ++ [j, 0]) = NpFloat.cos (NpFloat.add (NpFloat.sub
      ((vecPhi b.hkl_detector).get (i ++ [j])) (NpFloat.num Real.pi)) (A.get (i ++ [j]))) ∧
    (ptArr b A).get (i ++ [j, 1]) = NpFloat.cos (NpFloat.sub (NpFloat.sub
      ((vecPhi b.hkl_detector).get (i ++ [j])) (NpFloat.num Real.pi)) (A.get (i ++ [j]))) ∧
    (ptArr b A).get (i ++ [j, 2]) = NpFloat.sin (NpFloat.add (NpFloat.sub
      ((vecPhi b.hkl_detector).get (i ++ [j])) (NpFloat.num Real.pi)) (A.get (i ++ [j]))) ∧
    (ptArr b A).get (i ++ [j, 3]) = NpFloat.sin (NpFloat.sub (NpFloat.sub
      ((vecPhi b.hkl_detector).get (i ++ [j])) (NpFloat.num Real.pi)) (A.get (i ++ [j]))) := by
  refine ⟨?_, ?_, ?_, ?_⟩ <;> simp only [ptArr, dropLast_snoc2, getLastD_snoc2]

theorem planeTrace_char (b : KikuchiBand) (nav : List ℕ) (n : ℕ)
    (hdet : b.hkl_detector.shape = nav ++ [n, 3])
    (hgr : b.gnomonic_radius.shape = nav)
    (hsize : b.hkl.length = n) :
    ∃ A P, hesseAlpha b = some A ∧ planeTraceCoordinates b = some P ∧
      P.shape = nav ++ [n, 4] ∧
      ∀ i j, InB nav i → j < n →
        P.get (i ++ [j, 0]) = NpFloat.mul (b.gnomonic_radius.get i)
          (NpFloat.cos (NpFloat.add (NpFloat.sub
            ((vecPhi b.hkl_detector).get (i ++ [j])) (NpFloat.num Real.pi))
            (A.get (i ++ [j])))) ∧
        P.get (i ++ [j, 1]) = NpFloat.mul (b.gnomonic_radius.get i)
          (NpFloat.cos (NpFloat.sub (NpFloat.sub
            ((vecPhi b.hkl_detector).get (i ++ [j])) (NpFloat.num Real.pi))
            (A.get (i ++ [j])))) ∧
        P.get (i ++ [j, 2]) = NpFloat.mul (b.gnomonic_radius.get i)
          (NpFloat.sin (NpFloat.add (NpFloat.sub
            ((vecPhi b.hkl_detector).get (i ++ [j])) (NpFloat.num Real.pi))
            (A.get (i ++ [j])))) ∧
        P.get (i ++ [j, 3]) = NpFloat.mul (b.gnomonic_radius.get i)
          (NpFloat.sin (NpFloat.sub (NpFloat.sub
            ((vecPhi b.hkl_detector).get (i ++ [j])) (NpFloat.num Real.pi))
            (A.get (i ++ [j])))) := by
  obtain ⟨w, A, hw, hA, hAs, hAg⟩ := hesseAlpha_char b nav n hdet hgr
  have hnav : navigationShape b = nav := by
    simp only [navigationShape]
    rw [hdet, dropLast_snoc2, List.dropLast_concat]
  have hph : (vecPhi b.hkl_detector).shape = nav ++ [n] := by
    simp [vecPhi, hdet, dropLast_snoc2]
  have hcond : (vecPhi b.hkl_detector).shape = navigationShape b ++ [b.hkl.length] := by
    rw [hph, hnav, hsize]
  have hpts : (ptArr b A).shape = nav ++ [n, 4] := by
    simp [ptArr, hnav, hsize]
  have hg2 : (newaxisLast (newaxisLast b.gnomonic_radius)).shape = nav ++ [1, 1] := by
    simp [newaxisLast, hgr]
  have hbs : bshape2 (newaxisLast (newaxisLast b.gnomonic_radius)).shape
      (ptArr b A).shape = some (nav ++ [n, 4]) := by
    rw [hg2, hpts]
    exact bshape2_ones2 nav n 4
  obtain ⟨P, hP, hPs, hPg⟩ := ndZip_char NpFloat.mul _ _ hbs
  have hgrget : ∀ ii : List ℕ,
      (newaxisLast (newaxisLast b.gnomonic_radius)).get (ii ++ [0, 0]) =
        b.gnomonic_radius.get ii := by
    intro ii
    simp only [newaxisLast]
    rw [dropLast_snoc2, List.dropLast_concat]
  refine ⟨A, P, hA, ?_, hPs, ?_⟩
  · show (hesseAlpha b).bind (fun alpha =>
      if (vecPhi b.hkl_detector).shape = navigationShape b ++ [b.hkl.length] then
        ndZip NpFloat.mul (newaxisLast (newaxisLast b.gnomonic_radius)) (ptArr b alpha)
      else none) = some P
    rw [hA]
    show (if (vecPhi b.hkl_detector).shape = navigationShape b ++ [b.hkl.length] then
        ndZip NpFloat.mul (newaxisLast (newaxisLast b.gnomonic_radius)) (ptArr b A)
      else none) = some P
    rw [if_pos hcond]
    exact hP
  · intro i j hi hj
    obtain ⟨hp0, hp1, hp2, hp3⟩ := ptArr_get b A i j
    refine ⟨?_, ?_, ?_, ?_⟩
    · rw [hPg (i ++ [j, 0]), hg2, hpts, bidx_snoc2_ones hi j 0,
        bidx_self (inb_snoc2 hi hj (by omega)), hgrget, hp0]
    · rw [hPg (i ++ [j, 1]), hg2, hpts, bidx_snoc2_ones hi j 1,
        bidx_self (inb_snoc2 hi hj (by omega)), hgrget, hp1]
    · rw [hPg (i ++ [j, 2]), hg2, hpts, bidx_snoc2_ones hi j 2,
        bidx_self (inb_snoc2 hi hj (by omega)), hgrget, hp2]
    · rw [hPg (i ++ [j, 3]), hg2, hpts, bidx_snoc2_ones hi j 3,
        bidx_self (inb_snoc2 hi hj (by omega)), hgrget, hp3]

/-- C3 (amended): each row of `plane_trace_coordinates` along the last axis
is `[x1, x2, y1, y2]` — the two endpoints sit in slots `(0, 2)` and
`(1, 3)`, not `(0, 1)` and `(2, 3)` — and wherever `hesse_alpha` is a
finite value `a` (with finite detector components and radius `g`), both
endpoints lie exactly on the circle of radius `g`:
`x1² + y1² = g²` and `x2² + y2² = g²`. -/
theorem c3_plane_trace_on_circle (b : KikuchiBand) (nav : List ℕ) (n : ℕ)
    (hdet : b.hkl_detector.shape = nav ++ [n, 3])
    (hgr : b.gnomonic_radius.shape = nav)
    (hsize : b.hkl.length = n)
    (i : List ℕ) (j : ℕ) (hi : InB nav i) (hj : j < n)
    (xv yv g a : ℝ)
    (hx : b.hkl_detector.get (i ++ [j, 0]) = NpFloat.num xv)
    (hy : b.hkl_detector.get (i ++ [j, 1]) = NpFloat.num yv)
    (hgv : b.gnomonic_radius.get i = NpFloat.num g)
    (ha : ((hesseAlpha b).getD ndJunkF).get (i ++ [j]) = NpFloat.num a) :
    ((planeTraceCoordinates b).getD ndJunkF).get (i ++ [j, 0]) =
      NpFloat.num (g * Real.cos (atan2r yv xv - Real.pi + a)) ∧
    ((planeTraceCoordinates b).getD ndJunkF).get (i ++ [j, 1]) =
      NpFloat.num (g * Real.cos (atan2r yv xv - Real.pi - a)) ∧
    ((planeTraceCoordinates b).getD ndJunkF).get (i ++ [j, 2]) =
      NpFloat.num (g * Real.sin (atan2r yv xv - Real.pi + a)) ∧
    ((planeTraceCoordinates b).getD ndJunkF).get (i ++ [j, 3]) =
      NpFloat.num (g * Real.sin (atan2r yv xv - Real.pi - a)) ∧
    (g * Real.cos (atan2r yv xv - Real.pi + a)) ^ 2 +
      (g * Real.sin (atan2r yv xv - Real.pi + a)) ^ 2 = g ^ 2 ∧
    (g * Real.cos (atan2r yv xv - Real.pi - a)) ^ 2 +
      (g * Real.sin (atan2r yv xv - Real.pi - a)) ^ 2 = g ^ 2 := by
  obtain ⟨A, P, hA, hP, hPs, hPentry⟩ := planeTrace_char b nav n hdet hgr hsize
  rw [hA] at ha
  have ha2 : A.get (i ++ [j]) = NpFloat.num a := ha
  have hph2 : (vecPhi b.hkl_detector).get (i ++ [j]) = NpFloat.num (atan2r yv xv) := by
    show npAtan2 (b.hkl_detector.get ((i ++ [j]) ++ [1]))
      (b.hkl_detector.get ((i ++ [j]) ++ [0])) = NpFloat.num (atan2r yv xv)
    rw [show (i ++ [j]) ++ [1] = i ++ [j, 1] by simp,
        show (i ++ [j]) ++ [0] = i ++ [j, 0] by simp, hx, hy]
    rfl
  obtain ⟨h0, h1, h2, h3⟩ := hPentry i j hi hj
  rw [hP]
  simp only [Option.getD_some]
  have hpyth1 : (g * Real.cos (atan2r yv xv - Real.pi + a)) ^ 2 +
      (g * Real.sin (atan2r yv xv - Real.pi + a)) ^ 2 = g ^ 2 := by
    linear_combination (g ^ 2) * Real.sin_sq_add_cos_sq (atan2r yv xv - Real.pi + a)
  have hpyth2 : (g * Real.cos (atan2r yv xv - Real.pi - a)) ^ 2 +
      (g * Real.sin (atan2r yv xv - Real.pi - a)) ^ 2 = g ^ 2 := by
    linear_combination (g ^ 2) * Real.sin_sq_add_cos_sq (atan2r yv xv - Real.pi - a)
  refine ⟨?_, ?_, ?_, ?_, hpyth1, hpyth2⟩
  · rw [h0, hph2, ha2, hgv]
    rfl
  · rw [h1, hph2, ha2, hgv]
    rfl
  · rw [h2, hph2, ha2, hgv]
    rfl
  · rw [h3, hph2, ha2, hgv]
    rfl

/-- Detector data of shape `[1, 1, 3]` holding the single vector
`(-1, 0, 5)`. -/
def det3 : NDArray NpFloat :=
  ⟨[1, 1, 3], fun idx => if idx = [0, 0, 0] then NpFloat.num (-1)
    else if idx = [0, 0, 1] then NpFloat.num 0 else NpFloat.num 5⟩

/-- A single-pattern band over `det3` with stored radius array `[10]`. -/
def kb3 : KikuchiBand :=
  ⟨0, [(1, 1, 1)], det3, ⟨[1, 1], fun _ => true⟩, ⟨[1], fun _ => NpFloat.num 10⟩⟩

theorem kb3_theta : thetaOf (NpFloat.num (-1)) (NpFloat.num 0) (NpFloat.num 5) =
    NpFloat.num (Real.arccos (5 / Real.sqrt 26)) := by
  have h26 : (0 : ℝ) < Real.sqrt 26 := Real.sqrt_pos.mpr (by norm_num)
  have hsq : Real.sqrt 26 * Real.sqrt 26 = 26 := Real.mul_self_sqrt (by norm_num)
  have hb1 : (5 : ℝ) / Real.sqrt 26 ≤ 1 := by
    rw [div_le_one h26]
    nlinarith
  have hb2 : (-1 : ℝ) ≤ 5 / Real.sqrt 26 := by
    have hnn : (0 : ℝ) ≤ 5 / Real.sqrt 26 := by positivity
    linarith
  unfold thetaOf
  rw [num_mul, num_mul, num_mul, num_add, num_add,
      show ((-1 : ℝ) * (-1) + 0 * 0 + 5 * 5 : ℝ) = 26 from by norm_num,
      num_sqrt (by norm_num), num_div (ne_of_gt h26), num_arccos hb2 hb1]

theorem tan_kb3 : Real.tan (Real.pi / 2 - Real.arccos (5 / Real.sqrt 26)) = 5 := by
  have h26 : (0 : ℝ) < Real.sqrt 26 := Real.sqrt_pos.mpr (by norm_num)
  have hsq : Real.sqrt 26 * Real.sqrt 26 = 26 := Real.mul_self_sqrt (by norm_num)
  rw [Real.tan_pi_div_two_sub, Real.tan_arccos]
  have h1 : 1 - (5 / Real.sqrt 26) ^ 2 = 1 / 26 := by
    field_simp
    nlinarith
  rw [h1, show (1 : ℝ) / 26 = 26⁻¹ from by norm_num, Real.sqrt_inv]
  have h2 : (Real.sqrt 26)⁻¹ / (5 / Real.sqrt 26) = 1 / 5 := by
    field_simp
  rw [h2]
  norm_num

theorem kb3_hd : (hesseDistance kb3).get ([0] ++ [0]) = NpFloat.num 5 := by
  show NpFloat.tan (NpFloat.sub (NpFloat.num (Real.pi / 2))
    (thetaOf (NpFloat.num (-1)) (NpFloat.num 0) (NpFloat.num 5))) = NpFloat.num 5
  rw [kb3_theta, num_sub, num_tan, tan_kb3]

theorem kb3_within : ∃ w, withinGnomonicRadius kb3 = some w ∧
    w.get ([0] ++ [0]) = true := by
  obtain ⟨w, hw, hws, hwg⟩ := within_char kb3 [1] 1 rfl rfl
  refine ⟨w, hw, ?_⟩
  rw [hwg [0] 0 (inb_singleton (by omega)) (by omega), kb3_hd]
  have hgr2 : kb3.gnomonic_radius.get [0] = NpFloat.num 10 := rfl
  have hz : (zDetector kb3).get ([0] ++ [0]) = NpFloat.num 5 := rfl
  rw [hgr2, hz]
  show (decide (|(5 : ℝ)| < 10) && decide ((-(1 / 100000) : ℝ) < 5)) = true
  rw [abs_of_pos (by norm_num : (0 : ℝ) < 5)]
  simp only [Bool.and_eq_true, decide_eq_true_eq]
  constructor <;> norm_num

theorem kb3_hesse_alpha_val :
    ((hesseAlpha kb3).getD ndJunkF).get ([0] ++ [0]) = NpFloat.num (Real.pi / 3) := by
  obtain ⟨w, A, hw, hA, hAs, hAg⟩ := hesseAlpha_char kb3 [1] 1 rfl rfl
  obtain ⟨w2, hw2, hwtrue⟩ := kb3_within
  have hww : w2 = w := by
    rw [hw] at hw2
    exact (Option.some_inj.mp hw2).symm
  subst hww
  rw [hA]
  simp only [Option.getD_some]
  rw [hAg [0] 0 (inb_singleton (by omega)) (by omega), if_pos hwtrue, kb3_hd]
  have hgr2 : kb3.gnomonic_radius.get [0] = NpFloat.num 10 := rfl
  rw [hgr2, num_div (by norm_num : (10 : ℝ) ≠ 0),
      show (5 : ℝ) / 10 = 1 / 2 from by norm_num,
      num_arccos (by norm_num) (by norm_num)]
  congr 1
  rw [show (1 : ℝ) / 2 = Real.cos (Real.pi / 3) from Real.cos_pi_div_three.symm]
  exact Real.arccos_cos (by positivity) (by linarith [Real.pi_pos])

theorem kb3_phi : (vecPhi kb3.hkl_detector).get ([0] ++ [0]) = NpFloat.num Real.pi := by
  show NpFloat.num (atan2r 0 (-1)) = NpFloat.num Real.pi
  congr 1
  show Complex.arg ⟨(-1 : ℝ), (0 : ℝ)⟩ = Real.pi
  rw [show (⟨(-1 : ℝ), (0 : ℝ)⟩ : ℂ) = (-1 : ℂ) from by apply Complex.ext <;> simp]
  exact Complex.arg_neg_one

/-- C3 counterexample: for the band `kb3` (single pattern, plane pole
`(-1, 0, 5)`, radius 10) `hesse_alpha` is finite (`π/3`), yet the first two
entries of the plane-trace row are both 5, and `5² + 5² ≠ 10²` — so under
the claimed `[x1, y1, x2, y2]` layout the point `(x1, y1)` does not lie on
the circle of radius `gnomonic_radius`. -/
theorem c3_counterexample :
    ((hesseAlpha kb3).getD ndJunkF).get ([0] ++ [0]) = NpFloat.num (Real.pi / 3) ∧
    (((hesseAlpha kb3).getD ndJunkF).get ([0] ++ [0])).isFinite = true ∧
    ((planeTraceCoordinates kb3).getD ndJunkF).get ([0] ++ [0, 0]) = NpFloat.num 5 ∧
    ((planeTraceCoordinates kb3).getD ndJunkF).get ([0] ++ [0, 1]) = NpFloat.num 5 ∧
    kb3.gnomonic_radius.get [0] = NpFloat.num 10 ∧
    ¬ ((5 : ℝ) ^ 2 + 5 ^ 2 = 10 ^ 2) := by
  obtain ⟨A, P, hA, hP, hPs, hPentry⟩ := planeTrace_char kb3 [1] 1 rfl rfl rfl
  have hAval : A.get ([0] ++ [0]) = NpFloat.num (Real.pi / 3) := by
    have h := kb3_hesse_alpha_val
    rw [hA] at h
    exact h
  obtain ⟨h0, h1, h2, h3⟩ := hPentry [0] 0 (inb_singleton (by omega)) (by omega)
  have hgr2 : kb3.gnomonic_radius.get [0] = NpFloat.num 10 := rfl
  have hp0 : P.get ([0] ++ [0, 0]) = NpFloat.num 5 := by
    rw [h0, kb3_phi, hAval, hgr2]
    show NpFloat.num (10 * Real.cos (Real.pi - Real.pi + Real.pi / 3)) = NpFloat.num 5
    congr 1
    rw [show Real.pi - Real.pi + Real.pi / 3 = Real.pi / 3 from by ring,
        Real.cos_pi_div_three]
    norm_num
  have hp1 : P.get ([0] ++ [0, 1]) = NpFloat.num 5 := by
    rw [h1, kb3_phi, hAval, hgr2]
    show NpFloat.num (10 * Real.cos (Real.pi - Real.pi - Real.pi / 3)) = NpFloat.num 5
    congr 1
    rw [show Real.pi - Real.pi - Real.pi / 3 = -(Real.pi / 3) from by ring,
        Real.cos_neg, Real.cos_pi_div_three]
    norm_num
  rw [hP]
  simp only [Option.getD_some]
  refine ⟨kb3_hesse_alpha_val, ?_, hp0, hp1, hgr2, by norm_num⟩
  rw [kb3_hesse_alpha_val]
  rfl

/-- C3 witness: the amended theorem applied to `kb3` with `hesse_alpha`
value `π/3`. -/
theorem c3_witness :
    ((planeTraceCoordinates kb3).getD ndJunkF).get ([0] ++ [0, 0]) =
      NpFloat.num (10 * Real.cos (atan2r 0 (-1) - Real.pi + Real.pi / 3)) ∧
    ((planeTraceCoordinates kb3).getD ndJunkF).get ([0] ++ [0, 1]) =
      NpFloat.num (10 * Real.cos (atan2r 0 (-1) - Real.pi - Real.pi / 3)) ∧
    ((planeTraceCoordinates kb3).getD ndJunkF).get ([0] ++ [0, 2]) =
      NpFloat.num (10 * Real.sin (atan2r 0 (-1) - Real.pi + Real.pi / 3)) ∧
    ((planeTraceCoordinates kb3).getD ndJunkF).get ([0] ++ [0, 3]) =
      NpFloat.num (10 * Real.sin (atan2r 0 (-1) - Real.pi - Real.pi / 3)) ∧
    (10 * Real.cos (atan2r 0 (-1) - Real.pi + Real.pi / 3)) ^ 2 +
      (10 * Real.sin (atan2r 0 (-1) - Real.pi + Real.pi / 3)) ^ 2 = 10 ^ 2 ∧
    (10 * Real.cos (atan2r 0 (-1) - Real.pi - Real.pi / 3)) ^ 2 +
      (10 * Real.sin (atan2r 0 (-1) - Real.pi - Real.pi / 3)) ^ 2 = 10 ^ 2 :=
  c3_plane_trace_on_circle kb3 [1] 1 rfl rfl rfl [0] 0 (inb_singleton (by omega))
    (by omega) (-1) 0 10 (Real.pi / 3) rfl rfl rfl kb3_hesse_alpha_val

end Kikuchipy
